import Mathlib

/-!
Verification of the order-book engine in `src/orderbook.rs` (crate `rust-td 4`).

The engine keeps, per side, a contiguous sorted list of price levels
(bids descending, asks ascending), cached best / second-best prices and a
running total quantity.  This file gives a shallow embedding of that code
in two layers.  The structural layer embeds prices (Rust `i64`) as `Int` and
quantities (Rust `u64`) as `Nat`; the `ArrayVec` becomes a `List` together
with the capacity constant `MAX_LEVELS`, and the raw `ptr::copy` shifts of
`insert_at` / `remove_at` become the corresponding list splices.  The level
arrays and caches never feed arithmetic back into control flow, so this layer
is exact for them.  The running totals and the spread, however, are computed
by the source with `u64` / `i64` machine arithmetic that can wrap on
reachable inputs; the width-faithful layer (`U64`, `wadd`, `wsub`,
`wrap64`, the `…W` operations and `ReachableW` below) embeds that arithmetic
as `Nat`/`Int` with explicit reduction modulo `2^64`, and is related to the
structural layer by the simulation lemmas `side_setW_sim` /
`apply_updateW_sim`.
-/

namespace OrderBookSpec

/-- Rust `type Price = i64`. -/
abbrev Price := Int

/-- Rust `type Quantity = u64`. -/
abbrev Quantity := Nat

/-- `enum Side { Bid, Ask }` from `interfaces.rs`. -/
inductive Side where
  | Bid : Side
  | Ask : Side
deriving DecidableEq, Repr

/-- `enum Update` from `interfaces.rs`: `Set { price, quantity, side }` and
`Remove { price, side }`. -/
inductive Update where
  | Set : Int → Nat → Side → Update
  | Remove : Int → Side → Update
deriving DecidableEq, Repr

/-- `const MAX_LEVELS: usize = 1024` from `orderbook.rs`. -/
def MAX_LEVELS : Nat := 1024

/-- A price level: the `(Int, Nat)` pairs stored in the side arrays. -/
abbrev Level := Int × Nat

/-- "`a` is ranked strictly better than `b`" on a side: bids rank by
descending price, asks by ascending price.  This is the ordering that both
binary searches and all cache-update comparisons in `orderbook.rs` use,
written there as `(is_bid && a > b) || (!is_bid && a < b)`. -/
def rk (is_bid : Bool) (a b : Int) : Prop :=
  if is_bid then b < a else a < b

instance (is_bid : Bool) (a b : Int) : Decidable (rk is_bid a b) := by
  unfold rk; infer_instance

/-- Boolean form of `rk`, the literal shape of the source's comparison
`(is_bid && a > b) || (!is_bid && a < b)`. -/
def rkb (is_bid : Bool) (a b : Int) : Bool :=
  (is_bid && decide (b < a)) || (!is_bid && decide (a < b))

/-- The loop of `locate_bid` (`orderbook.rs:22`): binary search over the
descending bid array; `l`/`r` are the loop variables, the slice indexing
`book[m]` is rendered with `List.getD` (the probe index is always in
bounds, see `locateGo_spec`). -/
def locate_bid_go (book : List Level) (price : Int) (l r : Nat) : Bool × Nat :=
  if _h : l < r then
    let m := (l + r) / 2
    let mid := (book.getD m ((0 : Int), (0 : Nat))).1
    if mid = price then (true, m)
    else if mid < price then locate_bid_go book price l m
    else locate_bid_go book price (m + 1) r
  else (false, l)
termination_by r - l

/-- `locate_bid` (`orderbook.rs:22`): returns `(found, index)` — the exact
match index, or the sort-preserving insertion index. -/
def locate_bid (book : List Level) (price : Int) : Bool × Nat :=
  locate_bid_go book price 0 book.length

/-- The loop of `locate_ask` (`orderbook.rs:42`): binary search over the
ascending ask array. -/
def locate_ask_go (book : List Level) (price : Int) (l r : Nat) : Bool × Nat :=
  if _h : l < r then
    let m := (l + r) / 2
    let mid := (book.getD m ((0 : Int), (0 : Nat))).1
    if mid = price then (true, m)
    else if mid < price then locate_ask_go book price (m + 1) r
    else locate_ask_go book price l m
  else (false, l)
termination_by r - l

/-- `locate_ask` (`orderbook.rs:42`). -/
def locate_ask (book : List Level) (price : Int) : Bool × Nat :=
  locate_ask_go book price 0 book.length

/-- Side-generic binary-search loop: `locateGo true = locate_bid_go` and
`locateGo false = locate_ask_go` (proved below).  In both source loops the
probe `mid` equal to `price` returns `(true, m)`; otherwise the half in
which `price` ranks strictly better than `mid` keeps the left part
(`r = m`), else `l = m + 1`. -/
def locateGo (is_bid : Bool) (book : List Level) (price : Int) (l r : Nat) :
    Bool × Nat :=
  if _h : l < r then
    let m := (l + r) / 2
    let mid := (book.getD m ((0 : Int), (0 : Nat))).1
    if mid = price then (true, m)
    else if rkb is_bid price mid then locateGo is_bid book price l m
    else locateGo is_bid book price (m + 1) r
  else (false, l)
termination_by r - l

/-- Side-generic locate: bids use the descending comparator, asks the
ascending one. -/
def locate (is_bid : Bool) (book : List Level) (price : Int) : Bool × Nat :=
  if is_bid then locate_bid book price else locate_ask book price

/-- `insert_at` (`orderbook.rs:62`): push, shift `[idx, len)` right by one
slot with `ptr::copy`, and write `val` at `idx`.  For `idx ≤ len` the net
effect is the list splice below. -/
def insert_at (book : List Level) (idx : Nat) (val : Level) : List Level :=
  book.take idx ++ val :: book.drop idx

/-- `remove_at` (`orderbook.rs:76`): read the element at `idx`, shift
`[idx+1, len)` left by one slot, pop.  Returns the removed element and the
remaining list. -/
def remove_at (book : List Level) (idx : Nat) : Level × List Level :=
  (book.getD idx ((0 : Int), (0 : Nat)), book.take idx ++ book.drop (idx + 1))

/-- Loop body of `recompute_top2` (`orderbook.rs:93`–`112`): fold one level
into the `(top1, top2)` accumulator, skipping zero quantities. -/
def recompute_top2_step (is_bid : Bool) (acc : Option Int × Option Int)
    (pq : Level) : Option Int × Option Int :=
  let p := pq.1
  if pq.2 = 0 then acc
  else
    match acc.1 with
    | none => (some p, acc.2)
    | some t1 =>
      if (is_bid && decide (p > t1)) || (!is_bid && decide (p < t1)) then
        (some p, some t1)
      else if ((acc.2.map fun t2 =>
                 (is_bid && decide (p > t2)) || (!is_bid && decide (p < t2))).getD true)
              && decide (p ≠ t1) then
        (acc.1, some p)
      else acc

/-- `recompute_top2` (`orderbook.rs:90`): one pass over a side accumulating
the two best-ranked prices, skipping zero quantities.  The source's `for`
loop with mutable `top1`/`top2` is a left fold over the pair. -/
def recompute_top2 (book : List Level) (is_bid : Bool) :
    Option Int × Option Int :=
  book.foldl (recompute_top2_step is_bid) (none, none)

/-- Loop body of the rescan in `maybe_update_second_best`
(`orderbook.rs:127`–`139`): fold one level into the candidate second-best,
skipping zero quantities and the best price `b`. -/
def second_scan_step (is_bid : Bool) (b : Int) (candidate : Option Int)
    (pq : Level) : Option Int :=
  if pq.2 = 0 || pq.1 = b then candidate
  else
    match candidate with
    | none => some pq.1
    | some c =>
      if (is_bid && decide (pq.1 > c)) || (!is_bid && decide (pq.1 < c)) then
        some pq.1
      else candidate

/-- `maybe_update_second_best` (`orderbook.rs:116`): when the removed price
was the cached second-best, rescan for the best price other than `best`,
skipping zero quantities; otherwise keep the current second-best. -/
def maybe_update_second_best (book : List Level) (best current_second : Option Int)
    (price : Int) (is_bid : Bool) : Option Int :=
  if (current_second.map fun s => decide (s = price)).getD false then
    match best with
    | none => none
    | some b => book.foldl (second_scan_step is_bid b) none
  else current_second

/-- One side of the book: its level array, the two cached prices and the
running total (fields `bids`/`best_bid`/`second_best_bid`/`total_bid_qty`
of `OrderBookImpl`, and likewise for asks). -/
structure SideState where
  levels : List Level
  best : Option Int
  second : Option Int
  total : Nat
deriving DecidableEq, Repr

/-- The common tail of the not-found `Set` path (`orderbook.rs:209`–`224`
for bids, `268`–`283` for asks): splice the new level in at `idx`, add its
quantity to the side total, and update the best/second-best caches. -/
def side_insert_new (is_bid : Bool) (s : SideState) (idx : Nat)
    (price : Int) (quantity : Nat) : SideState :=
  let levels' := insert_at s.levels idx (price, quantity)
  let total' := s.total + quantity
  match s.best with
  | none => ⟨levels', some price, none, total'⟩
  | some b =>
    if (is_bid && decide (price > b)) || (!is_bid && decide (price < b)) then
      ⟨levels', some price, s.best, total'⟩
    else if ((s.second.map fun sb =>
               (is_bid && decide (price > sb)) || (!is_bid && decide (price < sb))).getD true)
            && decide (price ≠ b) then
      ⟨levels', s.best, some price, total'⟩
    else
      ⟨levels', s.best, s.second, total'⟩

/-- The removal path shared by `Set` with quantity `0` (`orderbook.rs:170`–
`186`) and `Remove` (`orderbook.rs:290`–`307`) — the two code blocks are
textually identical: remove the level at `idx`, subtract its quantity from
the total, and either recompute both caches (if the best was removed) or
patch the second-best. -/
def side_remove_found (is_bid : Bool) (s : SideState) (price : Int) (idx : Nat) :
    SideState :=
  let removed := (remove_at s.levels idx).1.2
  let levels' := (remove_at s.levels idx).2
  let total' := s.total - removed
  let removed_best := (s.best.map fun b => decide (b = price)).getD false
  if removed_best then
    let tops := recompute_top2 levels' is_bid
    ⟨levels', tops.1, tops.2, total'⟩
  else
    ⟨levels', s.best,
      maybe_update_second_best levels' s.best s.second price is_bid, total'⟩

/-- The `Update::Set` arm of `apply_update` for one side
(`orderbook.rs:166`–`225` for bids, `227`–`284` for asks; the two arms are
the same code with the side's comparator).  `cap` is `MAX_LEVELS`. -/
def side_set (is_bid : Bool) (cap : Nat) (s : SideState)
    (price : Int) (quantity : Nat) : SideState :=
  let fi := locate is_bid s.levels price
  let found := fi.1
  let idx := fi.2
  if found then
    let prev := (s.levels.getD idx ((0 : Int), (0 : Nat))).2
    if quantity = 0 then
      side_remove_found is_bid s price idx
    else
      let levels' := s.levels.set idx ((s.levels.getD idx ((0 : Int), (0 : Nat))).1, quantity)
      let total' := if prev ≤ quantity then s.total + (quantity - prev)
                    else s.total - (prev - quantity)
      ⟨levels', s.best, s.second, total'⟩
  else
    if quantity = 0 then s
    else if s.levels.length = cap ∧ 0 < s.levels.length ∧ s.levels.length ≤ idx then
      -- full book, insertion at or past the worst slot: drop the update
      s
    else if s.levels.length = cap then
      -- full book, better rank: evict the worst (last) level, then insert
      let dropped := (s.levels.getLast?.getD ((0 : Int), (0 : Nat))).2
      side_insert_new is_bid
        ⟨s.levels.dropLast, s.best, s.second, s.total - dropped⟩ idx price quantity
    else
      side_insert_new is_bid s idx price quantity

/-- The `Update::Remove` arm of `apply_update` for one side
(`orderbook.rs:288`–`308` for bids, `309`–`329` for asks). -/
def side_remove (is_bid : Bool) (s : SideState) (price : Int) : SideState :=
  let fi := locate is_bid s.levels price
  if fi.1 then side_remove_found is_bid s price fi.2 else s

/-- `struct OrderBookImpl` (`orderbook.rs:9`). -/
structure OrderBookImpl where
  bids : List Level
  asks : List Level
  best_bid : Option Int
  second_best_bid : Option Int
  best_ask : Option Int
  second_best_ask : Option Int
  total_bid_qty : Nat
  total_ask_qty : Nat
deriving DecidableEq, Repr

namespace OrderBookImpl

/-- The bid side of the book as a `SideState`. -/
def bidState (book : OrderBookImpl) : SideState :=
  ⟨book.bids, book.best_bid, book.second_best_bid, book.total_bid_qty⟩

/-- The ask side of the book as a `SideState`. -/
def askState (book : OrderBookImpl) : SideState :=
  ⟨book.asks, book.best_ask, book.second_best_ask, book.total_ask_qty⟩

/-- The side selected by a `Side` value. -/
def sideState (book : OrderBookImpl) : Side → SideState
  | Side.Bid => book.bidState
  | Side.Ask => book.askState

/-- Write back a `SideState` into the bid-side fields. -/
def withBid (book : OrderBookImpl) (s : SideState) : OrderBookImpl :=
  { book with bids := s.levels, best_bid := s.best,
              second_best_bid := s.second, total_bid_qty := s.total }

/-- Write back a `SideState` into the ask-side fields. -/
def withAsk (book : OrderBookImpl) (s : SideState) : OrderBookImpl :=
  { book with asks := s.levels, best_ask := s.best,
              second_best_ask := s.second, total_ask_qty := s.total }

/-- `OrderBook::new` (`orderbook.rs:149`): the empty book. -/
def new : OrderBookImpl :=
  ⟨[], [], none, none, none, none, 0, 0⟩

/-- `OrderBook::apply_update` (`orderbook.rs:163`), with the capacity
`cap` (`MAX_LEVELS` in the source) made an explicit parameter. -/
def apply_update (cap : Nat) (book : OrderBookImpl) (update : Update) :
    OrderBookImpl :=
  match update with
  | Update.Set price quantity side =>
    match side with
    | Side.Bid => book.withBid (side_set true cap book.bidState price quantity)
    | Side.Ask => book.withAsk (side_set false cap book.askState price quantity)
  | Update.Remove price side =>
    match side with
    | Side.Bid => book.withBid (side_remove true book.bidState price)
    | Side.Ask => book.withAsk (side_remove false book.askState price)

/-- `get_spread` (`orderbook.rs:335`). -/
def get_spread (book : OrderBookImpl) : Option Int :=
  match book.best_ask, book.best_bid with
  | some ask, some bid => some (ask - bid)
  | _, _ => none

/-- `get_best_bid` (`orderbook.rs:343`). -/
def get_best_bid (book : OrderBookImpl) : Option Int :=
  book.best_bid

/-- `get_best_ask` (`orderbook.rs:348`). -/
def get_best_ask (book : OrderBookImpl) : Option Int :=
  book.best_ask

/-- `get_quantity_at` (`orderbook.rs:353`). -/
def get_quantity_at (book : OrderBookImpl) (price : Int) (side : Side) :
    Option Nat :=
  match side with
  | Side.Bid =>
    let fi := locate_bid book.bids price
    if fi.1 then some ((book.bids.getD fi.2 ((0 : Int), (0 : Nat))).2) else none
  | Side.Ask =>
    let fi := locate_ask book.asks price
    if fi.1 then some ((book.asks.getD fi.2 ((0 : Int), (0 : Nat))).2) else none

/-- `get_top_levels` (`orderbook.rs:374`). -/
def get_top_levels (book : OrderBookImpl) (side : Side) (n : Nat) : List Level :=
  match side with
  | Side.Bid => book.bids.take n
  | Side.Ask => book.asks.take n

/-- `get_total_quantity` (`orderbook.rs:382`). -/
def get_total_quantity (book : OrderBookImpl) (side : Side) : Nat :=
  match side with
  | Side.Bid => book.total_bid_qty
  | Side.Ask => book.total_ask_qty

end OrderBookImpl

/-- States reachable from `new()` by a sequence of `apply_update` calls. -/
inductive Reachable (cap : Nat) : OrderBookImpl → Prop
  | base : Reachable cap OrderBookImpl.new
  | step {book : OrderBookImpl} (u : Update) :
      Reachable cap book → Reachable cap (OrderBookImpl.apply_update cap book u)

/-- Sum of the quantities of a level list. -/
def qsum (l : List Level) : Nat :=
  (l.map Prod.snd).sum

/-- Whether a `Side` value is the bid side. -/
def Side.isBid : Side → Bool
  | Side.Bid => true
  | Side.Ask => false

/-! ### The ranking order -/

/-- A side's level list is in ranking order: strictly sorted, best first. -/
abbrev Ranked (is_bid : Bool) (l : List Level) : Prop :=
  List.Pairwise (fun a b => rk is_bid a.1 b.1) l

theorem rk_trans {is_bid : Bool} {a b c : Int} (h1 : rk is_bid a b)
    (h2 : rk is_bid b c) : rk is_bid a c := by
  cases is_bid
  · simp only [rk, Bool.false_eq_true, if_false] at *; exact lt_trans h1 h2
  · simp only [rk, if_true] at *; exact lt_trans h2 h1

theorem rk_irrefl {is_bid : Bool} {a : Int} (h : rk is_bid a a) : False := by
  cases is_bid
  · simp only [rk, Bool.false_eq_true, if_false] at h; exact lt_irrefl a h
  · simp only [rk, if_true] at h; exact lt_irrefl a h

theorem rk_asymm {is_bid : Bool} {a b : Int} (h : rk is_bid a b) :
    ¬rk is_bid b a := by
  intro h2; exact rk_irrefl (rk_trans h h2)

theorem rk_total {is_bid : Bool} {a b : Int} (hne : a ≠ b)
    (h : ¬rk is_bid a b) : rk is_bid b a := by
  cases is_bid
  · simp only [rk, Bool.false_eq_true, if_false] at *
    rcases lt_trichotomy a b with hl | hl | hl
    · exact absurd hl h
    · exact absurd hl hne
    · exact hl
  · simp only [rk, if_true] at *
    rcases lt_trichotomy a b with hl | hl | hl
    · exact hl
    · exact absurd hl hne
    · exact absurd hl h

theorem rk_ne {is_bid : Bool} {a b : Int} (h : rk is_bid a b) : a ≠ b := by
  intro he; exact rk_irrefl (he ▸ h)

theorem rkb_eq_true_iff {is_bid : Bool} {a b : Int} :
    rkb is_bid a b = true ↔ rk is_bid a b := by
  cases is_bid <;> simp [rkb, rk]

theorem rkb_true_eq (a b : Int) : rkb true a b = decide (b < a) := by
  simp [rkb]

theorem rkb_false_eq (a b : Int) : rkb false a b = decide (a < b) := by
  simp [rkb]

theorem ranked_getElem_lt {is_bid : Bool} {l : List Level}
    (hs : Ranked is_bid l) {i j : Nat} (hij : i < j) {x y : Level}
    (hx : l[i]? = some x) (hy : l[j]? = some y) : rk is_bid x.1 y.1 := by
  have hjl : j < l.length := by
    by_contra hc
    rw [List.getElem?_eq_none (by omega)] at hy
    cases hy
  have hil : i < l.length := by omega
  have hex : l[i]? = some (l[i]) := List.getElem?_eq_getElem hil
  have hey : l[j]? = some (l[j]) := List.getElem?_eq_getElem hjl
  rw [hx] at hex
  rw [hy] at hey
  have hrel := (List.pairwise_iff_getElem.mp hs) i j hil hjl hij
  rw [← Option.some.inj hex, ← Option.some.inj hey] at hrel
  exact hrel

/-! ### Nat sums -/

theorem qsum_append (l₁ l₂ : List Level) : qsum (l₁ ++ l₂) = qsum l₁ + qsum l₂ := by
  simp [qsum]

theorem qsum_cons (x : Level) (l : List Level) : qsum (x :: l) = x.2 + qsum l := by
  simp [qsum]

theorem qsum_nil : qsum [] = 0 := rfl

theorem qsum_take_drop (l : List Level) (i : Nat) :
    qsum (l.take i) + qsum (l.drop i) = qsum l := by
  rw [← qsum_append, List.take_append_drop]

theorem single_le_qsum {l : List Level} {x : Level} (h : x ∈ l) : x.2 ≤ qsum l := by
  induction l with
  | nil => cases h
  | cons a t ih =>
    rw [List.mem_cons] at h
    rw [qsum_cons]
    rcases h with rfl | h
    · exact Nat.le_add_right _ _
    · exact le_trans (ih h) (Nat.le_add_left _ _)

/-! ### Correctness of the binary searches -/

/-- Loop invariant and postcondition of the side-generic binary-search loop:
probes stay in `[lo, hi]`, a `found` result points at an exact match, and a
not-found result is a rank-preserving insertion index separating the
better-ranked prefix from the worse-ranked suffix. -/
theorem locateGo_spec (is_bid : Bool) (book : List Level) (price : Int)
    (lo hi : Nat) (hhi : hi ≤ book.length) (hlohi : lo ≤ hi)
    (hsort : Ranked is_bid book)
    (hleft : ∀ y ∈ book.take lo, rk is_bid y.1 price)
    (hright : ∀ y ∈ book.drop hi, rk is_bid price y.1) :
    lo ≤ (locateGo is_bid book price lo hi).2 ∧
    (locateGo is_bid book price lo hi).2 ≤ hi ∧
    ((locateGo is_bid book price lo hi).1 = true →
      ∃ q, book[(locateGo is_bid book price lo hi).2]? = some (price, q)) ∧
    ((locateGo is_bid book price lo hi).1 = false →
      (∀ y ∈ book.take (locateGo is_bid book price lo hi).2, rk is_bid y.1 price) ∧
      (∀ y ∈ book.drop (locateGo is_bid book price lo hi).2, rk is_bid price y.1)) := by
  rw [locateGo]
  split
  case isFalse hlr =>
    have : lo = hi := Nat.le_antisymm hlohi (Nat.le_of_not_lt hlr)
    subst this
    refine ⟨le_refl _, le_refl _, by simp, fun _ => ⟨hleft, hright⟩⟩
  case isTrue hlr =>
    have hm1 : lo ≤ (lo + hi) / 2 := by omega
    have hm2 : (lo + hi) / 2 < hi := by omega
    have hmlen : (lo + hi) / 2 < book.length := lt_of_lt_of_le hm2 hhi
    dsimp only
    rw [List.getD_eq_getElem book _ hmlen]
    set m := (lo + hi) / 2 with hm
    have hdm : book.drop m = book[m] :: book.drop (m + 1) :=
      List.drop_eq_getElem_cons hmlen
    have hts : book.take (m + 1) = book.take m ++ [book[m]] := by
      rw [List.take_succ, List.getElem?_eq_getElem hmlen]; rfl
    split
    case isTrue heq =>
      exact ⟨hm1, le_of_lt hm2, fun _ =>
        ⟨book[m].2, by rw [List.getElem?_eq_getElem hmlen, ← heq]⟩, by simp⟩
    case isFalse hne =>
      split
      case isTrue hr =>
        have hrk : rk is_bid price book[m].1 := rkb_eq_true_iff.mp hr
        have hdrop' : ∀ y ∈ book.drop m, rk is_bid price y.1 := by
          rw [hdm]
          intro y hy
          rw [List.mem_cons] at hy
          rcases hy with rfl | hy
          · exact hrk
          · have hpair : Ranked is_bid (book.drop m) :=
              List.Pairwise.sublist (List.drop_sublist _ _) hsort
            have hpair2 := hdm ▸ hpair
            exact rk_trans hrk ((List.pairwise_cons.mp hpair2).1 y hy)
        have ih := locateGo_spec is_bid book price lo m (le_of_lt hmlen) hm1
          hsort hleft hdrop'
        exact ⟨ih.1, le_trans ih.2.1 (le_of_lt hm2), ih.2.2.1, ih.2.2.2⟩
      case isFalse hr =>
        have hrk : rk is_bid book[m].1 price := by
          refine rk_total (fun h => hne h.symm) ?_
          intro hc
          exact hr (rkb_eq_true_iff.mpr hc)
        have htake' : ∀ y ∈ book.take (m + 1), rk is_bid y.1 price := by
          rw [hts]
          intro y hy
          rw [List.mem_append, List.mem_singleton] at hy
          rcases hy with hy | rfl
          · have hpair : Ranked is_bid (book.take (m + 1)) :=
              List.Pairwise.sublist (List.take_sublist _ _) hsort
            have hpair2 := hts ▸ hpair
            have := (List.pairwise_append.mp hpair2).2.2 y hy book[m] (by simp)
            exact rk_trans this hrk
          · exact hrk
        have ih := locateGo_spec is_bid book price (m + 1) hi hhi
          (by omega) hsort htake' hright
        exact ⟨le_trans (by omega) ih.1, ih.2.1, ih.2.2.1, ih.2.2.2⟩
termination_by hi - lo
decreasing_by
  · omega
  · omega

/-- The bid-side loop is the generic loop with the descending comparator. -/
theorem locate_bid_go_eq (book : List Level) (price : Int) (l r : Nat) :
    locate_bid_go book price l r = locateGo true book price l r := by
  rw [locate_bid_go, locateGo]
  split
  case isFalse => rfl
  case isTrue hlr =>
    dsimp only
    by_cases he : (book.getD ((l + r) / 2) ((0 : Int), (0 : Nat))).1 = price
    · rw [if_pos he, if_pos he]
    · rw [if_neg he, if_neg he]
      by_cases hlt : (book.getD ((l + r) / 2) ((0 : Int), (0 : Nat))).1 < price
      · have hb : rkb true price (book.getD ((l + r) / 2) ((0 : Int), (0 : Nat))).1 = true := by
          rw [rkb_true_eq]; exact decide_eq_true hlt
        rw [if_pos hlt, if_pos hb]
        exact locate_bid_go_eq book price l ((l + r) / 2)
      · have hb : ¬rkb true price (book.getD ((l + r) / 2) ((0 : Int), (0 : Nat))).1 = true := by
          rw [rkb_true_eq, decide_eq_true_eq]; exact hlt
        rw [if_neg hlt, if_neg hb]
        exact locate_bid_go_eq book price ((l + r) / 2 + 1) r
termination_by r - l
decreasing_by
  · omega
  · omega

/-- The ask-side loop is the generic loop with the ascending comparator. -/
theorem locate_ask_go_eq (book : List Level) (price : Int) (l r : Nat) :
    locate_ask_go book price l r = locateGo false book price l r := by
  rw [locate_ask_go, locateGo]
  split
  case isFalse => rfl
  case isTrue hlr =>
    dsimp only
    by_cases he : (book.getD ((l + r) / 2) ((0 : Int), (0 : Nat))).1 = price
    · rw [if_pos he, if_pos he]
    · rw [if_neg he, if_neg he]
      by_cases hlt : (book.getD ((l + r) / 2) ((0 : Int), (0 : Nat))).1 < price
      · have hgt : ¬price < (book.getD ((l + r) / 2) ((0 : Int), (0 : Nat))).1 :=
          fun hc => lt_asymm hc hlt
        have hb : ¬rkb false price (book.getD ((l + r) / 2) ((0 : Int), (0 : Nat))).1 = true := by
          rw [rkb_false_eq, decide_eq_true_eq]; exact hgt
        rw [if_pos hlt, if_neg hb]
        exact locate_ask_go_eq book price ((l + r) / 2 + 1) r
      · have hgt : price < (book.getD ((l + r) / 2) ((0 : Int), (0 : Nat))).1 := by
          rcases lt_trichotomy (book.getD ((l + r) / 2) ((0 : Int), (0 : Nat))).1 price with hc | hc | hc
          · exact absurd hc hlt
          · exact absurd hc he
          · exact hc
        have hb : rkb false price (book.getD ((l + r) / 2) ((0 : Int), (0 : Nat))).1 = true := by
          rw [rkb_false_eq]; exact decide_eq_true hgt
        rw [if_neg hlt, if_pos hb]
        exact locate_ask_go_eq book price l ((l + r) / 2)
termination_by r - l
decreasing_by
  · omega
  · omega

/-- The per-side searches are the generic search. -/
theorem locate_eq_locateGo (is_bid : Bool) (book : List Level) (price : Int) :
    locate is_bid book price = locateGo is_bid book price 0 book.length := by
  cases is_bid
  · simp [locate, locate_ask, locate_ask_go_eq]
  · simp [locate, locate_bid, locate_bid_go_eq]

/-- Top-level correctness of `locate` on a ranked list. -/
theorem locate_spec (is_bid : Bool) (book : List Level) (price : Int)
    (hsort : Ranked is_bid book) :
    (locate is_bid book price).2 ≤ book.length ∧
    ((locate is_bid book price).1 = true →
      ∃ q, book[(locate is_bid book price).2]? = some (price, q)) ∧
    ((locate is_bid book price).1 = false →
      (∀ y ∈ book.take (locate is_bid book price).2, rk is_bid y.1 price) ∧
      (∀ y ∈ book.drop (locate is_bid book price).2, rk is_bid price y.1)) := by
  rw [locate_eq_locateGo]
  have h := locateGo_spec is_bid book price 0 book.length (le_refl _)
    (Nat.zero_le _) hsort (by simp) (by simp)
  exact ⟨h.2.1, h.2.2.1, h.2.2.2⟩

/-- A `found` result is sound on any list: the probed index holds the price. -/
theorem locate_found_sound (is_bid : Bool) (book : List Level) (price : Int)
    (h : (locate is_bid book price).1 = true) :
    (locate is_bid book price).2 < book.length ∧
    (book.getD (locate is_bid book price).2 ((0 : Int), (0 : Nat))).1 = price := by
  rw [locate_eq_locateGo] at *
  have main : ∀ n lo hi, hi - lo = n → hi ≤ book.length →
      (locateGo is_bid book price lo hi).1 = true →
      (locateGo is_bid book price lo hi).2 < book.length ∧
      (book.getD (locateGo is_bid book price lo hi).2 ((0 : Int), (0 : Nat))).1 = price := by
    intro n
    induction n using Nat.strong_induction_on with
    | _ n ih =>
      intro lo hi hn hhi hfound
      by_cases hlr : lo < hi
      · rw [locateGo, dif_pos hlr] at hfound ⊢
        have hmlen : (lo + hi) / 2 < book.length := by omega
        dsimp only at hfound ⊢
        by_cases heq : (book.getD ((lo + hi) / 2) ((0 : Int), (0 : Nat))).1 = price
        · rw [if_pos heq] at hfound ⊢
          exact ⟨hmlen, heq⟩
        · rw [if_neg heq] at hfound ⊢
          by_cases hr : rkb is_bid price (book.getD ((lo + hi) / 2) ((0 : Int), (0 : Nat))).1 = true
          · rw [if_pos hr] at hfound ⊢
            exact ih ((lo + hi) / 2 - lo) (by omega) lo ((lo + hi) / 2) rfl
              (by omega) hfound
          · rw [if_neg hr] at hfound ⊢
            exact ih (hi - ((lo + hi) / 2 + 1)) (by omega) ((lo + hi) / 2 + 1) hi rfl
              hhi hfound
      · rw [locateGo, dif_neg hlr] at hfound
        simp at hfound
  exact main (book.length - 0) 0 book.length rfl (le_refl _) h

/-- A not-found result on a ranked list means the price is absent. -/
theorem locate_not_found_not_mem (is_bid : Bool) (book : List Level) (price : Int)
    (hsort : Ranked is_bid book) (h : (locate is_bid book price).1 = false) :
    ∀ y ∈ book, y.1 ≠ price := by
  intro y hy
  have hspec := (locate_spec is_bid book price hsort).2.2 h
  rw [← List.take_append_drop (locate is_bid book price).2 book, List.mem_append] at hy
  rcases hy with hy | hy
  · exact rk_ne (hspec.1 y hy)
  · exact fun he => rk_ne (hspec.2 y hy) he.symm

/-- A present price is found on a ranked list. -/
theorem locate_mem_found (is_bid : Bool) (book : List Level) (price : Int)
    (hsort : Ranked is_bid book) {y : Level} (hy : y ∈ book) (hp : y.1 = price) :
    (locate is_bid book price).1 = true := by
  by_contra h
  exact locate_not_found_not_mem is_bid book price hsort
    (Bool.not_eq_true _ ▸ (by simpa using h)) y hy hp

/-- On a ranked list, positions are determined by prices. -/
theorem ranked_fst_inj {is_bid : Bool} {l : List Level} (hsort : Ranked is_bid l)
    {i j : Nat} {x y : Level} (hx : l[i]? = some x) (hy : l[j]? = some y)
    (hfst : x.1 = y.1) : i = j := by
  rcases Nat.lt_trichotomy i j with hij | hij | hij
  · exact absurd hfst (rk_ne (ranked_getElem_lt hsort hij hx hy))
  · exact hij
  · exact absurd hfst.symm (rk_ne (ranked_getElem_lt hsort hij hy hx))

/-- On a ranked list, a member and an indexed element with the same price
carry the same quantity. -/
theorem ranked_mem_getElem_eq {is_bid : Bool} {l : List Level}
    (hsort : Ranked is_bid l) {p : Int} {q q' : Nat} {i : Nat}
    (hmem : (p, q) ∈ l) (hidx : l[i]? = some (p, q')) : q' = q := by
  obtain ⟨j, hj⟩ := List.mem_iff_getElem?.mp hmem
  have hij : i = j := ranked_fst_inj hsort hidx hj rfl
  subst hij
  rw [hidx] at hj
  exact (Prod.ext_iff.mp (Option.some.inj hj)).2

/-! ### The bounded scans recompute exactly the two top prices -/

theorem recompute_top2_step_skip (is_bid : Bool) (t1 t2 : Int) (z : Level)
    (h1 : ¬rk is_bid z.1 t1) (h2 : ¬rk is_bid z.1 t2) :
    recompute_top2_step is_bid (some t1, some t2) z = (some t1, some t2) := by
  cases is_bid <;>
    simp only [rk, Bool.false_eq_true, if_false, if_true] at h1 h2 <;>
    by_cases hz : z.2 = 0 <;>
    simp [recompute_top2_step, hz, h1, h2]

theorem recompute_top2_fold_const (is_bid : Bool) (t1 t2 : Int) (t : List Level)
    (h : ∀ z ∈ t, ¬rk is_bid z.1 t1 ∧ ¬rk is_bid z.1 t2) :
    t.foldl (recompute_top2_step is_bid) (some t1, some t2) = (some t1, some t2) := by
  induction t with
  | nil => rfl
  | cons z t ih =>
    rw [List.foldl_cons,
      recompute_top2_step_skip is_bid t1 t2 z (h z (by simp)).1 (h z (by simp)).2]
    exact ih fun z' hz' => h z' (by simp [hz'])

/-- On a ranked, zero-free list the `recompute_top2` scan returns exactly
the first two prices. -/
theorem recompute_top2_eq_top (is_bid : Bool) (l : List Level)
    (hsort : Ranked is_bid l) (hpos : ∀ y ∈ l, y.2 ≠ 0) :
    recompute_top2 l is_bid = ((l[0]?).map Prod.fst, (l[1]?).map Prod.fst) := by
  match l with
  | [] => rfl
  | [x] =>
    have hx : x.2 ≠ 0 := hpos x (by simp)
    simp [recompute_top2, recompute_top2_step, hx]
  | x :: y :: t =>
    have hx : x.2 ≠ 0 := hpos x (by simp)
    have hy : y.2 ≠ 0 := hpos y (by simp)
    have hxy : rk is_bid x.1 y.1 := (List.pairwise_cons.mp hsort).1 y (by simp)
    have hstep1 : recompute_top2_step is_bid (none, none) x = (some x.1, none) := by
      simp [recompute_top2_step, hx]
    have hstep2 : recompute_top2_step is_bid (some x.1, none) y = (some x.1, some y.1) := by
      cases is_bid <;>
        simp only [rk, Bool.false_eq_true, if_false, if_true] at hxy <;>
        simp [recompute_top2_step, hy, lt_asymm hxy, ne_of_gt hxy, ne_of_lt hxy]
    rw [recompute_top2, List.foldl_cons, List.foldl_cons, hstep1, hstep2]
    rw [recompute_top2_fold_const]
    · simp
    · intro z hz
      have hxz : rk is_bid x.1 z.1 :=
        (List.pairwise_cons.mp hsort).1 z (by simp [hz])
      have hyz : rk is_bid y.1 z.1 :=
        (List.pairwise_cons.mp (List.pairwise_cons.mp hsort).2).1 z hz
      exact ⟨rk_asymm hxz, rk_asymm hyz⟩

theorem second_scan_fold_const (is_bid : Bool) (b c : Int) (t : List Level)
    (h : ∀ z ∈ t, z.2 = 0 ∨ z.1 = b ∨ ¬rk is_bid z.1 c) :
    t.foldl (second_scan_step is_bid b) (some c) = some c := by
  induction t with
  | nil => rfl
  | cons z t ih =>
    have hstep : second_scan_step is_bid b (some c) z = some c := by
      rcases h z (by simp) with hz | hz | hz
      · simp [second_scan_step, hz]
      · simp [second_scan_step, hz]
      · cases is_bid <;>
          simp only [rk, Bool.false_eq_true, if_false, if_true] at hz <;>
          by_cases hzb : z.1 = b <;>
          by_cases hz0 : z.2 = 0 <;>
          simp [second_scan_step, hzb, hz0, hz]
    rw [List.foldl_cons, hstep]
    exact ih fun z' hz' => h z' (by simp [hz'])

/-- On a ranked, zero-free list headed by the best price, the
`maybe_update_second_best` rescan returns exactly the second price. -/
theorem second_scan_eq (is_bid : Bool) (x : Level) (rest : List Level)
    (hsort : Ranked is_bid (x :: rest)) (hpos : ∀ y ∈ x :: rest, y.2 ≠ 0) :
    (x :: rest).foldl (second_scan_step is_bid x.1) none =
      (rest[0]?).map Prod.fst := by
  have hx : second_scan_step is_bid x.1 none x = none := by
    simp [second_scan_step]
  rw [List.foldl_cons, hx]
  match rest with
  | [] => rfl
  | y :: t =>
    have hy : y.2 ≠ 0 := hpos y (by simp)
    have hxy : rk is_bid x.1 y.1 := (List.pairwise_cons.mp hsort).1 y (by simp)
    have hstep : second_scan_step is_bid x.1 none y = some y.1 := by
      have hne : ¬y.1 = x.1 := fun he => rk_ne hxy he.symm
      simp [second_scan_step, hy, hne]
    rw [List.foldl_cons, hstep, second_scan_fold_const]
    · simp
    · intro z hz
      have hyz : rk is_bid y.1 z.1 :=
        (List.pairwise_cons.mp (List.pairwise_cons.mp hsort).2).1 z hz
      exact Or.inr (Or.inr (rk_asymm hyz))

/-! ### The per-side invariant -/

/-- Invariant of one side of the book: the level list is in ranking order,
holds no zero quantities, respects the capacity, both caches point at the
first two prices, and the running total is the sum of quantities. -/
def sideInv (is_bid : Bool) (cap : Nat) (s : SideState) : Prop :=
  Ranked is_bid s.levels ∧
  (∀ y ∈ s.levels, y.2 ≠ 0) ∧
  s.levels.length ≤ cap ∧
  s.best = (s.levels[0]?).map Prod.fst ∧
  s.second = (s.levels[1]?).map Prod.fst ∧
  s.total = qsum s.levels

/-- Invariant of the whole book. -/
def bookInv (cap : Nat) (book : OrderBookImpl) : Prop :=
  sideInv true cap book.bidState ∧ sideInv false cap book.askState

/-! ### More list helpers -/

theorem qsum_set (l : List Level) (i : Nat) (p : Int) (q : Nat) (hi : i < l.length) :
    qsum (l.set i (p, q)) + (l.getD i ((0 : Int), (0 : Nat))).2 = qsum l + q := by
  induction l generalizing i with
  | nil => simp at hi
  | cons a t ih =>
    cases i with
    | zero =>
      rw [List.set_cons_zero, qsum_cons, qsum_cons, List.getD_cons_zero]
      dsimp only
      omega
    | succ j =>
      have hj : j < t.length := by simpa using hi
      have := ih j hj
      rw [List.set_cons_succ, qsum_cons, qsum_cons, List.getD_cons_succ]
      omega

theorem map_fst_getElem?_set (l : List Level) (i j : Nat) (q : Nat)
    (hi : i < l.length) :
    (((l.set i ((l.getD i ((0 : Int), (0 : Nat))).1, q))[j]?).map Prod.fst) =
      (l[j]?).map Prod.fst := by
  by_cases hij : i = j
  · subst hij
    rw [List.getElem?_set_self hi, List.getElem?_eq_getElem hi,
      List.getD_eq_getElem l _ hi]
    rfl
  · rw [List.getElem?_set_ne hij]

theorem insert_at_getElem?_lt (l : List Level) (idx j : Nat) (x : Level)
    (hj : j < idx) (hidx : idx ≤ l.length) :
    (insert_at l idx x)[j]? = l[j]? := by
  have hlt : j < (List.take idx l).length := by rw [List.length_take]; omega
  rw [insert_at, List.getElem?_append, if_pos hlt, List.getElem?_take, if_pos hj]

theorem insert_at_getElem?_self (l : List Level) (idx : Nat) (x : Level)
    (hidx : idx ≤ l.length) : (insert_at l idx x)[idx]? = some x := by
  rw [insert_at, List.getElem?_append_right (by rw [List.length_take]; omega),
    List.length_take]
  have h0 : idx - idx ⊓ l.length = 0 := by omega
  rw [h0, List.getElem?_cons_zero]

theorem insert_at_getElem?_gt (l : List Level) (idx j : Nat) (x : Level)
    (hj : idx < j) (hidx : idx ≤ l.length) :
    (insert_at l idx x)[j]? = l[j - 1]? := by
  rw [insert_at, List.getElem?_append_right, List.length_take]
  · have h1 : idx ⊓ l.length = idx := by omega
    rw [h1]
    have h2 : j - idx = (j - idx - 1) + 1 := by omega
    rw [h2, List.getElem?_cons_succ, List.getElem?_drop]
    congr 1
    omega
  · rw [List.length_take]; omega

theorem insert_at_length (l : List Level) (idx : Nat) (x : Level)
    (hidx : idx ≤ l.length) :
    (insert_at l idx x).length = l.length + 1 := by
  rw [insert_at]
  simp only [List.length_append, List.length_take, List.length_cons,
    List.length_drop]
  omega

theorem insert_at_qsum (l : List Level) (idx : Nat) (x : Level) :
    qsum (insert_at l idx x) = qsum l + x.2 := by
  rw [insert_at, qsum_append, qsum_cons, ← qsum_take_drop l idx]
  ring

theorem insert_at_mem (l : List Level) (idx : Nat) (x : Level) {y : Level}
    (hy : y ∈ insert_at l idx x) : y = x ∨ y ∈ l := by
  rw [insert_at, List.mem_append, List.mem_cons] at hy
  rcases hy with hy | hy | hy
  · exact Or.inr (List.mem_of_mem_take hy)
  · exact Or.inl hy
  · exact Or.inr (List.mem_of_mem_drop hy)

theorem insert_at_ranked (is_bid : Bool) (l : List Level) (idx : Nat) (x : Level)
    (hsort : Ranked is_bid l) (hidx : idx ≤ l.length)
    (htake : ∀ y ∈ l.take idx, rk is_bid y.1 x.1)
    (hdrop : ∀ y ∈ l.drop idx, rk is_bid x.1 y.1) :
    Ranked is_bid (insert_at l idx x) := by
  unfold insert_at
  have hsort0 : Ranked is_bid (List.take idx l ++ List.drop idx l) := by
    rw [List.take_append_drop]; exact hsort
  have hsort' := List.pairwise_append.mp hsort0
  refine List.pairwise_append.mpr ⟨hsort'.1, ?_, ?_⟩
  · exact List.pairwise_cons.mpr ⟨hdrop, hsort'.2.1⟩
  · intro a ha b hb
    rw [List.mem_cons] at hb
    rcases hb with rfl | hb
    · exact htake a ha
    · exact hsort'.2.2 a ha b hb

/-! ### Branch characterizations of `side_set` and `side_remove` -/

theorem side_set_found_zero (is_bid : Bool) (cap : Nat) (s : SideState)
    (price : Int) (hf : (locate is_bid s.levels price).1 = true) :
    side_set is_bid cap s price 0 =
      side_remove_found is_bid s price (locate is_bid s.levels price).2 := by
  rw [side_set]
  rw [if_pos hf, if_pos rfl]

theorem side_set_found_pos (is_bid : Bool) (cap : Nat) (s : SideState)
    (price : Int) (q : Nat)
    (hf : (locate is_bid s.levels price).1 = true) (hq : q ≠ 0) :
    side_set is_bid cap s price q =
      ⟨s.levels.set (locate is_bid s.levels price).2
          ((s.levels.getD (locate is_bid s.levels price).2 ((0 : Int), (0 : Nat))).1, q),
        s.best, s.second,
        if (s.levels.getD (locate is_bid s.levels price).2 ((0 : Int), (0 : Nat))).2 ≤ q then
          s.total + (q - (s.levels.getD (locate is_bid s.levels price).2 ((0 : Int), (0 : Nat))).2)
        else
          s.total - ((s.levels.getD (locate is_bid s.levels price).2 ((0 : Int), (0 : Nat))).2 - q)⟩ := by
  rw [side_set]
  rw [if_pos hf, if_neg hq]

theorem side_set_notfound_zero (is_bid : Bool) (cap : Nat) (s : SideState)
    (price : Int) (hf : ¬(locate is_bid s.levels price).1 = true) :
    side_set is_bid cap s price 0 = s := by
  rw [side_set]
  rw [if_neg hf, if_pos rfl]

theorem side_set_notfound_drop (is_bid : Bool) (cap : Nat) (s : SideState)
    (price : Int) (q : Nat)
    (hf : ¬(locate is_bid s.levels price).1 = true) (hq : q ≠ 0)
    (hfull : s.levels.length = cap) (hpos : 0 < s.levels.length)
    (hidx : s.levels.length ≤ (locate is_bid s.levels price).2) :
    side_set is_bid cap s price q = s := by
  rw [side_set]
  rw [if_neg hf, if_neg hq, if_pos ⟨hfull, hpos, hidx⟩]

theorem side_set_notfound_evict (is_bid : Bool) (cap : Nat) (s : SideState)
    (price : Int) (q : Nat)
    (hf : ¬(locate is_bid s.levels price).1 = true) (hq : q ≠ 0)
    (hfull : s.levels.length = cap)
    (hidx : (locate is_bid s.levels price).2 < s.levels.length) :
    side_set is_bid cap s price q =
      side_insert_new is_bid
        ⟨s.levels.dropLast, s.best, s.second,
          s.total - (s.levels.getLast?.getD ((0 : Int), (0 : Nat))).2⟩
        (locate is_bid s.levels price).2 price q := by
  rw [side_set]
  rw [if_neg hf, if_neg hq, if_neg (by omega), if_pos hfull]

theorem side_set_notfound_plain (is_bid : Bool) (cap : Nat) (s : SideState)
    (price : Int) (q : Nat)
    (hf : ¬(locate is_bid s.levels price).1 = true) (hq : q ≠ 0)
    (hnfull : ¬s.levels.length = cap) :
    side_set is_bid cap s price q =
      side_insert_new is_bid s (locate is_bid s.levels price).2 price q := by
  rw [side_set]
  rw [if_neg hf, if_neg hq, if_neg (by simp [hnfull]), if_neg hnfull]

theorem side_remove_found_case (is_bid : Bool) (s : SideState) (price : Int)
    (hf : (locate is_bid s.levels price).1 = true) :
    side_remove is_bid s price =
      side_remove_found is_bid s price (locate is_bid s.levels price).2 := by
  rw [side_remove]
  rw [if_pos hf]

theorem side_remove_notfound_case (is_bid : Bool) (s : SideState) (price : Int)
    (hf : ¬(locate is_bid s.levels price).1 = true) :
    side_remove is_bid s price = s := by
  rw [side_remove]
  rw [if_neg hf]

theorem insert_at_zero (l : List Level) (x : Level) : insert_at l 0 x = x :: l := by
  simp [insert_at]

/-- The source's cache-update condition is the ranking order. -/
theorem src_cond_iff (is_bid : Bool) (a b : Int) :
    (((is_bid && decide (a > b)) || (!is_bid && decide (a < b))) = true) ↔
      rk is_bid a b := by
  cases is_bid <;> simp [rk, gt_iff_lt]

/-- Inserting a new level at its sort-preserving index keeps the side
invariant, provided the caches describe the list (with the one stale-cache
shape that arises after an eviction from a two-level side). -/
theorem side_insert_new_inv (is_bid : Bool) (cap : Nat) (s : SideState)
    (idx : Nat) (price : Int) (q : Nat)
    (hsort : Ranked is_bid s.levels)
    (hpos : ∀ y ∈ s.levels, y.2 ≠ 0)
    (hlen : s.levels.length < cap)
    (hidx : idx ≤ s.levels.length)
    (htake : ∀ y ∈ s.levels.take idx, rk is_bid y.1 price)
    (hdrop : ∀ y ∈ s.levels.drop idx, rk is_bid price y.1)
    (hbest : s.best = (s.levels[0]?).map Prod.fst)
    (hsecond : s.second = (s.levels[1]?).map Prod.fst ∨
      (s.levels.length = 1 ∧ idx ≤ 1 ∧
        ∃ s2, s.second = some s2 ∧ rk is_bid price s2))
    (hq : q ≠ 0)
    (htot : s.total = qsum s.levels) :
    sideInv is_bid cap (side_insert_new is_bid s idx price q) ∧
    (side_insert_new is_bid s idx price q).levels = insert_at s.levels idx (price, q) ∧
    (side_insert_new is_bid s idx price q).total = s.total + q := by
  have hlv : (side_insert_new is_bid s idx price q).levels =
      insert_at s.levels idx (price, q) := by
    rcases hsb : s.best with _ | b
    · simp only [side_insert_new, hsb]
    · simp only [side_insert_new, hsb]
      split_ifs <;> rfl
  have htt : (side_insert_new is_bid s idx price q).total = s.total + q := by
    rcases hsb : s.best with _ | b
    · simp only [side_insert_new, hsb]
    · simp only [side_insert_new, hsb]
      split_ifs <;> rfl
  have hsort' : Ranked is_bid (insert_at s.levels idx (price, q)) :=
    insert_at_ranked is_bid s.levels idx (price, q) hsort hidx htake hdrop
  have hpos' : ∀ y ∈ insert_at s.levels idx (price, q), y.2 ≠ 0 := by
    intro y hy
    rcases insert_at_mem s.levels idx (price, q) hy with rfl | hy
    · exact hq
    · exact hpos y hy
  have hlen' : (insert_at s.levels idx (price, q)).length ≤ cap := by
    rw [insert_at_length s.levels idx (price, q) hidx]; omega
  have hqs' : qsum (insert_at s.levels idx (price, q)) = s.total + q := by
    rw [insert_at_qsum, htot]
  have hcache :
      (side_insert_new is_bid s idx price q).best =
        ((insert_at s.levels idx (price, q))[0]?).map Prod.fst ∧
      (side_insert_new is_bid s idx price q).second =
        ((insert_at s.levels idx (price, q))[1]?).map Prod.fst := by
    rcases hsb : s.best with _ | b
    · -- empty side: best cache was absent
      have hnil : s.levels = [] := by
        rw [hsb] at hbest
        rcases h0 : s.levels[0]? with _ | l0
        · have hl0 : s.levels.length = 0 := by
            by_contra hc
            rw [List.getElem?_eq_getElem (by omega)] at h0; cases h0
          exact List.length_eq_zero.mp hl0
        · rw [h0] at hbest; simp at hbest
      have hidx0 : idx = 0 := by
        rw [hnil] at hidx; simpa using hidx
      simp only [side_insert_new, hsb]
      rw [hidx0, insert_at_zero, hnil]
      simp
    · -- non-empty side
      rcases h0 : s.levels[0]? with _ | l0
      · rw [hsb, h0] at hbest; simp at hbest
      have hlen1 : 0 < s.levels.length := by
        by_contra hc
        rw [List.getElem?_eq_none (by omega)] at h0; cases h0
      have hb : b = l0.1 := by
        rw [hsb, h0] at hbest; simpa using hbest
      have hl0mem : l0 ∈ s.levels := List.mem_iff_getElem?.mpr ⟨0, h0⟩
      by_cases hrk1 : rk is_bid price b
      · -- the new price outranks the best: it is inserted at the top
        have hidx0 : idx = 0 := by
          by_contra hc
          have h1i : 0 < idx := by omega
          have hmem : l0 ∈ s.levels.take idx :=
            List.mem_iff_getElem?.mpr ⟨0, by rw [List.getElem?_take, if_pos h1i]; exact h0⟩
          exact rk_asymm (htake l0 hmem) (hb ▸ hrk1)
        simp only [side_insert_new, hsb]
        rw [if_pos ((src_cond_iff is_bid price b).mpr hrk1)]
        rw [hidx0, insert_at_zero]
        constructor
        · simp
        · simp [h0, hb]
      · -- the new price does not outrank the best
        have hidx1 : 0 < idx := by
          by_contra hc
          have hidx0 : idx = 0 := by omega
          have hmem : l0 ∈ s.levels.drop idx := by
            rw [hidx0, List.drop_zero]; exact hl0mem
          exact hrk1 (hb ▸ hdrop l0 hmem)
        have hc1 : ¬(((is_bid && decide (price > b)) || (!is_bid && decide (price < b))) = true) :=
          fun hcx => hrk1 ((src_cond_iff is_bid price b).mp hcx)
        have hmem0take : l0 ∈ s.levels.take idx :=
          List.mem_iff_getElem?.mpr ⟨0, by rw [List.getElem?_take, if_pos hidx1]; exact h0⟩
        have hnb : price ≠ b := by
          intro he
          exact rk_ne (htake l0 hmem0take) (hb ▸ he.symm)
        have hbest' : ((insert_at s.levels idx (price, q))[0]?).map Prod.fst = some b := by
          rw [insert_at_getElem?_lt s.levels idx 0 (price, q) hidx1 hidx, h0]
          simp [hb]
        rcases hss : s.second with _ | s2
        · -- no cached second-best: the new level becomes second
          have hidxeq : idx = 1 := by
            rcases hsecond with hsL | hsR
            · rw [hss] at hsL
              rcases h1 : s.levels[1]? with _ | l1
              · have : s.levels.length ≤ 1 := by
                  by_contra hc
                  rw [List.getElem?_eq_getElem (by omega : 1 < s.levels.length)] at h1
                  cases h1
                omega
              · rw [h1] at hsL; simp at hsL
            · rcases hsR.2.2 with ⟨s2, hs2, _⟩
              rw [hss] at hs2; cases hs2
          simp only [side_insert_new, hsb, hss]
          rw [if_neg hc1]
          have hc2 : ((Option.map
              (fun sb => (is_bid && decide (price > sb)) || (!is_bid && decide (price < sb)))
              (none : Option Int)).getD true && decide (price ≠ b)) = true := by
            simp [hnb]
          rw [if_pos hc2]
          refine ⟨hbest'.symm, ?_⟩
          rw [hidxeq, insert_at_getElem?_self s.levels 1 (price, q) (by omega)]
          rfl
        · -- a cached second-best exists
          by_cases hrk2 : rk is_bid price s2
          · -- new price outranks it: slot 1 must be the insertion point
            have hidxeq : idx = 1 := by
              by_contra hc
              have h2i : 2 ≤ idx := by omega
              rcases hsecond with hsL | hsR
              · rw [hss] at hsL
                rcases h1 : s.levels[1]? with _ | l1
                · rw [h1] at hsL; simp at hsL
                · rw [h1] at hsL
                  have hs2e : s2 = l1.1 := by simpa using hsL
                  have hmem : l1 ∈ s.levels.take idx :=
                    List.mem_iff_getElem?.mpr
                      ⟨1, by rw [List.getElem?_take, if_pos (by omega)]; exact h1⟩
                  exact rk_asymm (htake l1 hmem) (hs2e ▸ hrk2)
              · omega
            simp only [side_insert_new, hsb, hss]
            rw [if_neg hc1]
            have hc2 : ((Option.map
                (fun sb => (is_bid && decide (price > sb)) || (!is_bid && decide (price < sb)))
                (some s2)).getD true && decide (price ≠ b)) = true := by
              simp only [Option.map_some, Option.getD_some, Bool.and_eq_true,
                decide_eq_true_eq]
              exact ⟨(src_cond_iff is_bid price s2).mpr hrk2, hnb⟩
            rw [if_pos hc2]
            refine ⟨hbest'.symm, ?_⟩
            rw [hidxeq, insert_at_getElem?_self s.levels 1 (price, q) (by omega)]
            rfl
          · -- cached second-best keeps its place
            rcases hsecond with hsL | hsR
            · rw [hss] at hsL
              rcases h1 : s.levels[1]? with _ | l1
              · rw [h1] at hsL; simp at hsL
              · rw [h1] at hsL
                have hs2e : s2 = l1.1 := by simpa using hsL
                have hidx2 : 2 ≤ idx := by
                  by_contra hc
                  have hidxeq : idx = 1 := by omega
                  have hmem : l1 ∈ s.levels.drop idx := by
                    refine List.mem_iff_getElem?.mpr ⟨0, ?_⟩
                    rw [List.getElem?_drop, hidxeq]
                    exact h1
                  exact hrk2 (hs2e ▸ hdrop l1 hmem)
                simp only [side_insert_new, hsb, hss]
                rw [if_neg hc1]
                have hc2 : ¬((Option.map
                    (fun sb => (is_bid && decide (price > sb)) || (!is_bid && decide (price < sb)))
                    (some s2)).getD true && decide (price ≠ b)) = true := by
                  simp only [Option.map_some, Option.getD_some, Bool.and_eq_true,
                    decide_eq_true_eq, not_and]
                  intro hcx
                  exact absurd ((src_cond_iff is_bid price s2).mp hcx) hrk2
                rw [if_neg hc2]
                refine ⟨hbest'.symm, ?_⟩
                rw [insert_at_getElem?_lt s.levels idx 1 (price, q) (by omega) hidx, h1]
                simp [hs2e]
            · rcases hsR.2.2 with ⟨s2', hs2', hrk2'⟩
              rw [hss] at hs2'
              cases hs2'
              exact absurd hrk2' hrk2
  refine ⟨⟨?_, ?_, ?_, ?_, ?_, ?_⟩, hlv, htt⟩
  · rw [hlv]; exact hsort'
  · rw [hlv]; exact hpos'
  · rw [hlv]; exact hlen'
  · rw [hlv]; exact hcache.1
  · rw [hlv]; exact hcache.2
  · rw [hlv, htt]; exact hqs'.symm

/-- Removing the level at an exact-match index keeps the side invariant;
moreover the removed price is gone and the total drops by its quantity. -/
theorem side_remove_found_inv (is_bid : Bool) (cap : Nat) (s : SideState)
    (price : Int) (idx : Nat) (hinv : sideInv is_bid cap s)
    (hix : idx < s.levels.length)
    (hpe : (s.levels.getD idx ((0 : Int), (0 : Nat))).1 = price) :
    sideInv is_bid cap (side_remove_found is_bid s price idx) ∧
    (side_remove_found is_bid s price idx).levels =
      s.levels.take idx ++ s.levels.drop (idx + 1) ∧
    (side_remove_found is_bid s price idx).total +
      (s.levels.getD idx ((0 : Int), (0 : Nat))).2 = s.total ∧
    ∀ y ∈ (side_remove_found is_bid s price idx).levels, y.1 ≠ price := by
  obtain ⟨hsort, hpos, hlen, hbest, hsecond, htot⟩ := hinv
  have hgd : s.levels.getD idx ((0 : Int), (0 : Nat)) = s.levels[idx] :=
    List.getD_eq_getElem s.levels _ hix
  have hsplit : s.levels =
      s.levels.take idx ++ s.levels.getD idx ((0 : Int), (0 : Nat)) :: s.levels.drop (idx + 1) := by
    conv_lhs => rw [← List.take_append_drop idx s.levels]
    rw [List.drop_eq_getElem_cons hix, ← hgd]
  have hsub : (s.levels.take idx ++ s.levels.drop (idx + 1)).Sublist s.levels := by
    conv_rhs => rw [hsplit]
    exact List.Sublist.append_left (List.sublist_cons_self _ _) _
  have hsort' : Ranked is_bid (s.levels.take idx ++ s.levels.drop (idx + 1)) :=
    List.Pairwise.sublist hsub hsort
  have hpos' : ∀ y ∈ s.levels.take idx ++ s.levels.drop (idx + 1), y.2 ≠ 0 :=
    fun y hy => hpos y (hsub.subset hy)
  have hlen' : (s.levels.take idx ++ s.levels.drop (idx + 1)).length ≤ cap := by
    rw [List.length_append, List.length_take, List.length_drop]
    omega
  have hqs' : qsum (s.levels.take idx ++ s.levels.drop (idx + 1)) +
      (s.levels.getD idx ((0 : Int), (0 : Nat))).2 = qsum s.levels := by
    conv_rhs => rw [hsplit]
    rw [qsum_append, qsum_append, qsum_cons]
    omega
  have hjl : ∀ j, j < idx →
      (s.levels.take idx ++ s.levels.drop (idx + 1))[j]? = s.levels[j]? := by
    intro j hj
    have hlt : j < (List.take idx s.levels).length := by
      rw [List.length_take]; omega
    rw [List.getElem?_append, if_pos hlt, List.getElem?_take, if_pos hj]
  have hjr : ∀ j, idx ≤ j →
      (s.levels.take idx ++ s.levels.drop (idx + 1))[j]? = s.levels[j + 1]? := by
    intro j hj
    rw [List.getElem?_append_right (by rw [List.length_take]; omega),
      List.length_take, List.getElem?_drop]
    congr 1
    omega
  have hne' : ∀ y ∈ s.levels.take idx ++ s.levels.drop (idx + 1), y.1 ≠ price := by
    have hP : Ranked is_bid (s.levels.take idx ++
        s.levels.getD idx ((0 : Int), (0 : Nat)) :: s.levels.drop (idx + 1)) := by
      rw [← hsplit]; exact hsort
    have hPA := List.pairwise_append.mp hP
    intro y hy
    rw [List.mem_append] at hy
    rcases hy with hy | hy
    · intro he
      have hrel := hPA.2.2 y hy (s.levels.getD idx ((0 : Int), (0 : Nat)))
        (List.mem_cons_self _ _)
      exact rk_ne hrel (he.trans hpe.symm)
    · intro he
      have hrel := (List.pairwise_cons.mp hPA.2.1).1 y hy
      exact rk_ne hrel (hpe.trans he.symm)
  have hlen1 : 0 < s.levels.length := by omega
  have hL0 : s.levels[0]? = some (s.levels[0]) :=
    List.getElem?_eq_getElem hlen1
  have hbestSome : s.best = some ((s.levels[0]).1) := by
    rw [hbest, hL0]; rfl
  have hremove : remove_at s.levels idx =
      (s.levels.getD idx ((0 : Int), (0 : Nat)),
        s.levels.take idx ++ s.levels.drop (idx + 1)) := by
    rw [remove_at]
  have htotval : s.total - (s.levels.getD idx ((0 : Int), (0 : Nat))).2 =
      qsum (s.levels.take idx ++ s.levels.drop (idx + 1)) := by
    rw [htot]; omega
  by_cases h0 : idx = 0
  · -- removing the cached best: full recompute
    subst h0
    have hpe0 : (s.levels[0]).1 = price := by rw [← hgd]; exact hpe
    have hrb : ((s.best.map fun b => decide (b = price)).getD false) = true := by
      rw [hbestSome]
      simpa using hpe0
    have htops := recompute_top2_eq_top is_bid
      (s.levels.take 0 ++ s.levels.drop 1) hsort' hpos'
    have hres : side_remove_found is_bid s price 0 =
        ⟨s.levels.take 0 ++ s.levels.drop 1,
          (recompute_top2 (s.levels.take 0 ++ s.levels.drop 1) is_bid).1,
          (recompute_top2 (s.levels.take 0 ++ s.levels.drop 1) is_bid).2,
          s.total - (s.levels.getD 0 ((0 : Int), (0 : Nat))).2⟩ := by
      simp only [side_remove_found, hremove, hrb, if_true]
    rw [hres]
    refine ⟨⟨hsort', hpos', hlen', ?_, ?_, ?_⟩, rfl, ?_, hne'⟩
    · rw [htops]
    · rw [htops]
    · exact htotval
    · show s.total - (s.levels.getD 0 ((0 : Int), (0 : Nat))).2 +
        (s.levels.getD 0 ((0 : Int), (0 : Nat))).2 = s.total
      rw [htot]
      have hmem : s.levels.getD 0 ((0 : Int), (0 : Nat)) ∈ s.levels := by
        rw [hgd]; exact List.getElem_mem hlen1
      have := single_le_qsum hmem
      omega
  · -- removing a non-best level
    have hix0 : 0 < idx := by omega
    have hlen2 : 2 ≤ s.levels.length := by omega
    have hpe' : (s.levels[idx]).1 = price := by rw [← hgd]; exact hpe
    have hne0 : (s.levels[0]).1 ≠ price := by
      intro he
      exact h0 (ranked_fst_inj hsort hL0 (List.getElem?_eq_getElem hix)
        (he.trans hpe'.symm)).symm
    have hrb : ((s.best.map fun b => decide (b = price)).getD false) = false := by
      rw [hbestSome]
      simpa using hne0
    have hlen1' : 1 < s.levels.length := by omega
    have hL1 : s.levels[1]? = some (s.levels[1]) :=
      List.getElem?_eq_getElem hlen1'
    have hsecondSome : s.second = some ((s.levels[1]).1) := by
      rw [hsecond, hL1]; rfl
    have hmus : maybe_update_second_best
        (s.levels.take idx ++ s.levels.drop (idx + 1)) s.best s.second price is_bid =
        ((s.levels.take idx ++ s.levels.drop (idx + 1))[1]?).map Prod.fst := by
      by_cases h1 : idx = 1
      · -- the cached second-best was removed: rescan
        subst h1
        have hpe1 : (s.levels[1]).1 = price := by rw [← hgd]; exact hpe
        have hcond : ((s.second.map fun s' => decide (s' = price)).getD false) = true := by
          rw [hsecondSome]
          simpa using hpe1
        rw [maybe_update_second_best.eq_def, if_pos hcond, hbestSome]
        have hsplice : s.levels.take 1 ++ s.levels.drop (1 + 1) =
            (s.levels[0]) :: s.levels.drop (1 + 1) := by
          have h01 : s.levels.take 1 = [s.levels[0]] := by
            rw [List.take_one]
            rw [List.head?_eq_getElem?, hL0]
            rfl
          rw [h01]
          rfl
        have hscan := second_scan_eq is_bid (s.levels[0]) (s.levels.drop (1 + 1))
          (by rw [← hsplice]; exact hsort') (by rw [← hsplice]; exact hpos')
        show (s.levels.take 1 ++ s.levels.drop (1 + 1)).foldl
            (second_scan_step is_bid ((s.levels[0]).1)) none = _
        rw [hsplice, hscan]
        simp
      · -- an unrelated level was removed: the cached second-best stands
        have hix2 : 2 ≤ idx := by omega
        have hne1 : (s.levels[1]).1 ≠ price := by
          intro he
          exact h1 (ranked_fst_inj hsort hL1 (List.getElem?_eq_getElem hix)
            (he.trans hpe'.symm)).symm
        have hcond : ¬((s.second.map fun s' => decide (s' = price)).getD false) = true := by
          rw [hsecondSome]
          simpa using hne1
        rw [maybe_update_second_best.eq_def, if_neg hcond]
        rw [hjl 1 (by omega), hsecondSome, hL1]
        rfl
    have hres : side_remove_found is_bid s price idx =
        ⟨s.levels.take idx ++ s.levels.drop (idx + 1), s.best,
          maybe_update_second_best (s.levels.take idx ++ s.levels.drop (idx + 1))
            s.best s.second price is_bid,
          s.total - (s.levels.getD idx ((0 : Int), (0 : Nat))).2⟩ := by
      simp only [side_remove_found, hremove, hrb, Bool.false_eq_true, if_false]
    rw [hres]
    refine ⟨⟨hsort', hpos', hlen', ?_, ?_, ?_⟩, rfl, ?_, hne'⟩
    · show s.best = _
      rw [hjl 0 hix0, hbest]
    · show maybe_update_second_best _ _ _ _ _ = _
      rw [hmus]
    · exact htotval
    · show s.total - (s.levels.getD idx ((0 : Int), (0 : Nat))).2 +
        (s.levels.getD idx ((0 : Int), (0 : Nat))).2 = s.total
      rw [htot]
      have hmem : s.levels.getD idx ((0 : Int), (0 : Nat)) ∈ s.levels := by
        rw [hgd]; exact List.getElem_mem hix
      have := single_le_qsum hmem
      omega

/-- Overwriting a quantity in place preserves the ranking order. -/
theorem ranked_set (is_bid : Bool) (l : List Level) (i : Nat) (q : Nat)
    (hi : i < l.length) (hsort : Ranked is_bid l) :
    Ranked is_bid (l.set i ((l.getD i ((0 : Int), (0 : Nat))).1, q)) := by
  have hgd : l.getD i ((0 : Int), (0 : Nat)) = l[i] := List.getD_eq_getElem l _ hi
  have hsort' := List.pairwise_iff_getElem.mp hsort
  refine List.pairwise_iff_getElem.mpr ?_
  intro a b ha hb hab
  rw [List.length_set] at ha hb
  rw [List.getElem_set, List.getElem_set]
  split
  case isTrue h =>
    split
    case isTrue h' => omega
    case isFalse h' =>
      have := hsort' a b ha hb hab
      simp only [hgd]
      subst h
      exact this
  case isFalse h =>
    split
    case isTrue h' =>
      have := hsort' a b ha hb hab
      simp only [hgd]
      subst h'
      exact this
    case isFalse h' => exact hsort' a b ha hb hab

/-- `side_set` preserves the side invariant (for any capacity of at least
two, as in the source where `MAX_LEVELS = 1024`). -/
theorem side_set_inv (is_bid : Bool) (cap : Nat) (s : SideState)
    (price : Int) (q : Nat) (hcap : 2 ≤ cap) (hinv : sideInv is_bid cap s) :
    sideInv is_bid cap (side_set is_bid cap s price q) := by
  by_cases hf : (locate is_bid s.levels price).1 = true
  · -- the price is already present
    obtain ⟨hixlt, hpe⟩ := locate_found_sound is_bid s.levels price hf
    by_cases hq0 : q = 0
    · subst hq0
      rw [side_set_found_zero is_bid cap s price hf]
      exact (side_remove_found_inv is_bid cap s price _ hinv hixlt hpe).1
    · rw [side_set_found_pos is_bid cap s price q hf hq0]
      obtain ⟨hsort, hpos, hlen, hbest, hsecond, htot⟩ := hinv
      have hgd : s.levels.getD (locate is_bid s.levels price).2 ((0 : Int), (0 : Nat)) =
          s.levels[(locate is_bid s.levels price).2] :=
        List.getD_eq_getElem s.levels _ hixlt
      refine ⟨?_, ?_, ?_, ?_, ?_, ?_⟩
      · exact ranked_set is_bid s.levels _ q hixlt hsort
      · intro y hy
        rcases List.mem_or_eq_of_mem_set hy with hy | rfl
        · exact hpos y hy
        · exact hq0
      · show (s.levels.set _ _).length ≤ cap
        rw [List.length_set]
        exact hlen
      · show s.best = _
        rw [hbest]
        exact (map_fst_getElem?_set s.levels _ 0 q hixlt).symm
      · show s.second = _
        rw [hsecond]
        exact (map_fst_getElem?_set s.levels _ 1 q hixlt).symm
      · show (if (s.levels.getD (locate is_bid s.levels price).2 ((0 : Int), (0 : Nat))).2 ≤ q
            then s.total + (q - (s.levels.getD (locate is_bid s.levels price).2 ((0 : Int), (0 : Nat))).2)
            else s.total - ((s.levels.getD (locate is_bid s.levels price).2 ((0 : Int), (0 : Nat))).2 - q)) =
          qsum (s.levels.set (locate is_bid s.levels price).2
            ((s.levels.getD (locate is_bid s.levels price).2 ((0 : Int), (0 : Nat))).1, q))
        have hq := qsum_set s.levels (locate is_bid s.levels price).2
          (s.levels.getD (locate is_bid s.levels price).2 ((0 : Int), (0 : Nat))).1 q hixlt
        have hmem : s.levels.getD (locate is_bid s.levels price).2 ((0 : Int), (0 : Nat)) ∈
            s.levels := by
          rw [hgd]; exact List.getElem_mem hixlt
        have hle := single_le_qsum hmem
        rw [htot]
        split <;> omega
  · -- the price is absent
    have hff : (locate is_bid s.levels price).1 = false := by
      simpa using hf
    obtain ⟨hixle, _, hsep⟩ := locate_spec is_bid s.levels price hinv.1
    obtain ⟨htake, hdrop⟩ := hsep hff
    by_cases hq0 : q = 0
    · subst hq0
      rw [side_set_notfound_zero is_bid cap s price hf]
      exact hinv
    · by_cases hful : s.levels.length = cap
      · by_cases hdix : s.levels.length ≤ (locate is_bid s.levels price).2
        · rw [side_set_notfound_drop is_bid cap s price q hf hq0 hful (by omega) hdix]
          exact hinv
        · -- eviction of the worst level, then insertion
          obtain ⟨hsort, hpos, hlen, hbest, hsecond, htot⟩ := hinv
          have hixlt : (locate is_bid s.levels price).2 < s.levels.length := by omega
          have hlen2 : 2 ≤ s.levels.length := by omega
          have hnn : s.levels ≠ [] := by
            intro he; rw [he] at hlen2; simp at hlen2
          rw [side_set_notfound_evict is_bid cap s price q hf hq0 hful hixlt]
          have hdlt : s.levels.dropLast = s.levels.take (s.levels.length - 1) :=
            List.dropLast_eq_take s.levels
          have hglast : s.levels.getLast?.getD ((0 : Int), (0 : Nat)) =
              s.levels.getLast hnn := by
            rw [List.getLast?_eq_getLast s.levels hnn]; rfl
          have hsplitlast : s.levels.dropLast ++ [s.levels.getLast hnn] = s.levels :=
            List.dropLast_append_getLast hnn
          have hqlast : qsum s.levels.dropLast + (s.levels.getLast hnn).2 =
              qsum s.levels := by
            conv_rhs => rw [← hsplitlast]
            rw [qsum_append, qsum_cons, qsum_nil]
            omega
          refine (side_insert_new_inv is_bid cap
            ⟨s.levels.dropLast, s.best, s.second,
              s.total - (s.levels.getLast?.getD ((0 : Int), (0 : Nat))).2⟩
            (locate is_bid s.levels price).2 price q
            (List.Pairwise.sublist (List.dropLast_sublist s.levels) hsort)
            (fun y hy => hpos y (List.mem_of_mem_dropLast hy))
            ?_ ?_ ?_ ?_ ?_ ?_ hq0 ?_).1
          · show s.levels.dropLast.length < cap
            rw [List.length_dropLast]
            omega
          · show (locate is_bid s.levels price).2 ≤ s.levels.dropLast.length
            rw [List.length_dropLast]
            omega
          · show ∀ y ∈ s.levels.dropLast.take (locate is_bid s.levels price).2, _
            intro y hy
            refine htake y ?_
            rw [hdlt, List.take_take] at hy
            have : (locate is_bid s.levels price).2 ⊓ (s.levels.length - 1) =
                (locate is_bid s.levels price).2 := by omega
            rw [this] at hy
            exact hy
          · show ∀ y ∈ s.levels.dropLast.drop (locate is_bid s.levels price).2, _
            intro y hy
            refine hdrop y ?_
            rw [hdlt, List.drop_take] at hy
            exact List.mem_of_mem_take hy
          · show s.best = _
            rw [hbest]
            rw [List.getElem?_dropLast, if_pos (by omega)]
          · by_cases hlen3 : 3 ≤ s.levels.length
            · refine Or.inl ?_
              show s.second = _
              rw [hsecond, List.getElem?_dropLast, if_pos (by omega)]
            · -- the side held exactly two levels: the cache is momentarily stale
              have hlen2' : s.levels.length = 2 := by omega
              refine Or.inr ⟨?_, by omega, ?_⟩
              · show s.levels.dropLast.length = 1
                rw [List.length_dropLast]
                omega
              · have h1lt : 1 < s.levels.length := by omega
                have hL1 : s.levels[1]? = some (s.levels[1]) :=
                  List.getElem?_eq_getElem h1lt
                refine ⟨(s.levels[1]).1, ?_, ?_⟩
                · show s.second = _
                  rw [hsecond, hL1]
                  rfl
                · refine hdrop _ ?_
                  refine List.mem_iff_getElem?.mpr ⟨1 - (locate is_bid s.levels price).2, ?_⟩
                  rw [List.getElem?_drop]
                  have : (locate is_bid s.levels price).2 +
                      (1 - (locate is_bid s.levels price).2) = 1 := by omega
                  rw [this]
                  exact hL1
          · show s.total - (s.levels.getLast?.getD ((0 : Int), (0 : Nat))).2 =
              qsum s.levels.dropLast
            rw [hglast, htot]
            omega
      · -- room available: plain insertion
        rw [side_set_notfound_plain is_bid cap s price q hf hq0 hful]
        obtain ⟨hsort, hpos, hlen, hbest, hsecond, htot⟩ := hinv
        exact (side_insert_new_inv is_bid cap s (locate is_bid s.levels price).2
          price q hsort hpos (by omega) hixle htake hdrop hbest
          (Or.inl hsecond) hq0 htot).1

/-- `side_remove` preserves the side invariant. -/
theorem side_remove_inv (is_bid : Bool) (cap : Nat) (s : SideState)
    (price : Int) (hinv : sideInv is_bid cap s) :
    sideInv is_bid cap (side_remove is_bid s price) := by
  by_cases hf : (locate is_bid s.levels price).1 = true
  · obtain ⟨hixlt, hpe⟩ := locate_found_sound is_bid s.levels price hf
    rw [side_remove_found_case is_bid s price hf]
    exact (side_remove_found_inv is_bid cap s price _ hinv hixlt hpe).1
  · rw [side_remove_notfound_case is_bid s price hf]
    exact hinv

/-! ### Book-level invariant and reachability -/

theorem rk_true_iff (a b : Int) : rk true a b ↔ b < a := by simp [rk]

theorem rk_false_iff (a b : Int) : rk false a b ↔ a < b := by simp [rk]

theorem bookInv_new (cap : Nat) : bookInv cap OrderBookImpl.new := by
  refine ⟨⟨List.Pairwise.nil, ?_, Nat.zero_le _, rfl, rfl, rfl⟩,
    ⟨List.Pairwise.nil, ?_, Nat.zero_le _, rfl, rfl, rfl⟩⟩ <;>
  · intro y h
    cases h

theorem bookInv_apply_update (cap : Nat) (book : OrderBookImpl) (u : Update)
    (hcap : 2 ≤ cap) (hinv : bookInv cap book) :
    bookInv cap (OrderBookImpl.apply_update cap book u) := by
  rcases u with ⟨p, q, side⟩ | ⟨p, side⟩ <;> rcases side
  · exact ⟨side_set_inv true cap book.bidState p q hcap hinv.1, hinv.2⟩
  · exact ⟨hinv.1, side_set_inv false cap book.askState p q hcap hinv.2⟩
  · exact ⟨side_remove_inv true cap book.bidState p hinv.1, hinv.2⟩
  · exact ⟨hinv.1, side_remove_inv false cap book.askState p hinv.2⟩

theorem reachable_bookInv {cap : Nat} {book : OrderBookImpl} (hcap : 2 ≤ cap)
    (h : Reachable cap book) : bookInv cap book := by
  induction h with
  | base => exact bookInv_new cap
  | step u hr ih => exact bookInv_apply_update cap _ _ hcap ih

/-- `Set` with quantity zero takes exactly the same path as `Remove`, on any
side state whatsoever. -/
theorem side_set_zero_eq_remove (is_bid : Bool) (cap : Nat) (s : SideState)
    (price : Int) : side_set is_bid cap s price 0 = side_remove is_bid s price := by
  by_cases hf : (locate is_bid s.levels price).1 = true
  · rw [side_set_found_zero is_bid cap s price hf,
      side_remove_found_case is_bid s price hf]
  · rw [side_set_notfound_zero is_bid cap s price hf,
      side_remove_notfound_case is_bid s price hf]

/-- A `Remove` for a price absent from the side state is a no-op — on any
side state, sorted or not. -/
theorem side_remove_absent (is_bid : Bool) (s : SideState) (price : Int)
    (h : ∀ y ∈ s.levels, y.1 ≠ price) :
    side_remove is_bid s price = s := by
  by_cases hf : (locate is_bid s.levels price).1 = true
  · obtain ⟨hlt, hpe⟩ := locate_found_sound is_bid s.levels price hf
    have hmem : s.levels.getD (locate is_bid s.levels price).2 ((0 : Int), (0 : Nat)) ∈
        s.levels := by
      rw [List.getD_eq_getElem s.levels _ hlt]
      exact List.getElem_mem hlt
    exact absurd hpe (h _ hmem)
  · exact side_remove_notfound_case is_bid s price hf

/-! ### Claim theorems -/

/-- C10: an update on one side leaves the other side's four fields (level
list, best, second-best, total) unchanged; the query operations are pure
functions of the state and modify nothing by construction. -/
theorem claim_C10_frame (cap : Nat) (book : OrderBookImpl) :
    (∀ p q, (OrderBookImpl.apply_update cap book (Update.Set p q Side.Bid)).askState =
      book.askState) ∧
    (∀ p, (OrderBookImpl.apply_update cap book (Update.Remove p Side.Bid)).askState =
      book.askState) ∧
    (∀ p q, (OrderBookImpl.apply_update cap book (Update.Set p q Side.Ask)).bidState =
      book.bidState) ∧
    (∀ p, (OrderBookImpl.apply_update cap book (Update.Remove p Side.Ask)).bidState =
      book.bidState) :=
  ⟨fun _ _ => rfl, fun _ => rfl, fun _ _ => rfl, fun _ => rfl⟩

/-- C6: `Set` with quantity `0` and `Remove` produce identical book states —
the identical removal path when the level exists, a no-op otherwise.  This
holds for every book state, in particular every reachable one. -/
theorem claim_C6_set_zero_is_remove (cap : Nat) (book : OrderBookImpl)
    (p : Int) (side : Side) :
    OrderBookImpl.apply_update cap book (Update.Set p 0 side) =
      OrderBookImpl.apply_update cap book (Update.Remove p side) := by
  cases side
  · show book.withBid (side_set true cap book.bidState p 0) =
      book.withBid (side_remove true book.bidState p)
    rw [side_set_zero_eq_remove]
  · show book.withAsk (side_set false cap book.askState p 0) =
      book.withAsk (side_remove false book.askState p)
    rw [side_set_zero_eq_remove]

/-- C3: in every state reachable from `new()` by `apply_update` calls, the
bid levels are strictly descending by price, the ask levels strictly
ascending, both sides' prices are duplicate-free, and no stored quantity is
zero. -/
theorem claim_C3_sorted_invariant (book : OrderBookImpl)
    (h : Reachable MAX_LEVELS book) :
    List.Pairwise (fun a b : Level => b.1 < a.1) book.bids ∧
    List.Pairwise (fun a b : Level => a.1 < b.1) book.asks ∧
    (book.bids.map Prod.fst).Nodup ∧
    (book.asks.map Prod.fst).Nodup ∧
    (∀ y ∈ book.bids, y.2 ≠ 0) ∧
    (∀ y ∈ book.asks, y.2 ≠ 0) := by
  obtain ⟨hbid, hask⟩ := reachable_bookInv (by norm_num [MAX_LEVELS]) h
  have hsb : List.Pairwise (fun a b : Level => b.1 < a.1) book.bids :=
    hbid.1.imp fun hr => (rk_true_iff _ _).mp hr
  have hsa : List.Pairwise (fun a b : Level => a.1 < b.1) book.asks :=
    hask.1.imp fun hr => (rk_false_iff _ _).mp hr
  refine ⟨hsb, hsa, ?_, ?_, hbid.2.1, hask.2.1⟩
  · exact List.pairwise_map.mpr (hbid.1.imp fun hr => rk_ne hr)
  · exact List.pairwise_map.mpr (hask.1.imp fun hr => rk_ne hr)

/-- C5: in every reachable state each side's cached best is the first
level's price (absent iff the side is empty), the cached second-best is the
second level's price (absent iff fewer than two levels), the second-best is
strictly worse-ranked than the best whenever present, and the best bid
(resp. ask) bounds every stored bid (resp. ask) price from above (resp.
below). -/
theorem claim_C5_cache_invariant (book : OrderBookImpl)
    (h : Reachable MAX_LEVELS book) :
    book.best_bid = (book.bids[0]?).map Prod.fst ∧
    book.best_ask = (book.asks[0]?).map Prod.fst ∧
    book.second_best_bid = (book.bids[1]?).map Prod.fst ∧
    book.second_best_ask = (book.asks[1]?).map Prod.fst ∧
    (∀ s2, book.second_best_bid = some s2 →
      ∃ b, book.best_bid = some b ∧ s2 < b) ∧
    (∀ s2, book.second_best_ask = some s2 →
      ∃ a, book.best_ask = some a ∧ a < s2) ∧
    (∀ b, book.get_best_bid = some b → ∀ y ∈ book.bids, y.1 ≤ b) ∧
    (∀ a, book.get_best_ask = some a → ∀ y ∈ book.asks, a ≤ y.1) := by
  obtain ⟨hbid, hask⟩ := reachable_bookInv (by norm_num [MAX_LEVELS]) h
  obtain ⟨hsortb, _, _, hbestb, hsecondb, _⟩ := hbid
  obtain ⟨hsorta, _, _, hbesta, hseconda, _⟩ := hask
  have second_lt : ∀ (is_bid : Bool) (l : List Level) (s2 : Int),
      Ranked is_bid l → ((l[1]?).map Prod.fst = some s2) →
      ∃ b, (l[0]?).map Prod.fst = some b ∧ rk is_bid b s2 := by
    intro is_bid l s2 hsort h1
    rcases hL1 : l[1]? with _ | l1
    · rw [hL1] at h1; cases h1
    · rw [hL1] at h1
      have hs2 : l1.1 = s2 := by simpa using h1
      have h1lt : 1 < l.length := by
        by_contra hc
        rw [List.getElem?_eq_none (by omega)] at hL1; cases hL1
      have h0lt : 0 < l.length := by omega
      have hL0 : l[0]? = some (l[0]) := List.getElem?_eq_getElem h0lt
      have hl1e : l[1] = l1 := by
        have h := List.getElem?_eq_getElem h1lt
        rw [hL1] at h
        exact (Option.some.inj h).symm
      refine ⟨(l[0]).1, by rw [hL0]; rfl, ?_⟩
      have hrel := ranked_getElem_lt hsort (by omega : (0 : Nat) < 1) hL0 hL1
      rw [hs2] at hrel
      exact hrel
  have best_bound : ∀ (is_bid : Bool) (l : List Level) (b : Int),
      Ranked is_bid l → ((l[0]?).map Prod.fst = some b) →
      ∀ y ∈ l, y.1 = b ∨ rk is_bid b y.1 := by
    intro is_bid l b hsort h0 y hy
    obtain ⟨j, hj⟩ := List.mem_iff_getElem?.mp hy
    have hjlt : j < l.length := by
      by_contra hc
      rw [List.getElem?_eq_none (by omega)] at hj; cases hj
    have hyj : l[j] = y := by
      have h := List.getElem?_eq_getElem hjlt
      rw [hj] at h
      exact (Option.some.inj h).symm
    have h0lt : 0 < l.length := by omega
    have hb : (l[0]).1 = b := by
      rw [List.getElem?_eq_getElem h0lt] at h0
      simpa using h0
    rcases Nat.eq_zero_or_pos j with rfl | hj0
    · left
      rw [← hyj, hb]
    · right
      have hrel := ranked_getElem_lt hsort hj0 (List.getElem?_eq_getElem h0lt) hj
      rw [hb] at hrel
      exact hrel
  refine ⟨hbestb, hbesta, hsecondb, hseconda, ?_, ?_, ?_, ?_⟩
  · intro s2 hs2
    obtain ⟨b, hb, hrk⟩ := second_lt true book.bids s2 hsortb (hsecondb ▸ hs2)
    exact ⟨b, hbestb.trans hb, (rk_true_iff b s2).mp hrk⟩
  · intro s2 hs2
    obtain ⟨a, ha, hrk⟩ := second_lt false book.asks s2 hsorta (hseconda ▸ hs2)
    exact ⟨a, hbesta.trans ha, (rk_false_iff a s2).mp hrk⟩
  · intro b hb y hy
    rcases best_bound true book.bids b hsortb (hbestb ▸ hb) y hy with he | hrk
    · omega
    · have := (rk_true_iff b y.1).mp hrk
      omega
  · intro a ha y hy
    rcases best_bound false book.asks a hsorta (hbesta ▸ ha) y hy with he | hrk
    · omega
    · have := (rk_false_iff a y.1).mp hrk
      omega

/-- C7: `Remove` is idempotent on reachable states, and a `Remove` for a
price absent from the side leaves the whole book unchanged. -/
theorem claim_C7_remove_idempotent (book : OrderBookImpl)
    (h : Reachable MAX_LEVELS book) :
    (∀ (p : Int) (side : Side),
      OrderBookImpl.apply_update MAX_LEVELS
        (OrderBookImpl.apply_update MAX_LEVELS book (Update.Remove p side))
        (Update.Remove p side) =
      OrderBookImpl.apply_update MAX_LEVELS book (Update.Remove p side)) ∧
    (∀ (p : Int) (side : Side), (∀ y ∈ (book.sideState side).levels, y.1 ≠ p) →
      OrderBookImpl.apply_update MAX_LEVELS book (Update.Remove p side) = book) := by
  obtain ⟨hbid, hask⟩ := reachable_bookInv (by norm_num [MAX_LEVELS]) h
  have key : ∀ (is_bid : Bool) (s : SideState) (p : Int),
      sideInv is_bid MAX_LEVELS s → ∀ y ∈ (side_remove is_bid s p).levels, y.1 ≠ p := by
    intro is_bid s p hinv
    by_cases hf : (locate is_bid s.levels p).1 = true
    · obtain ⟨hixlt, hpe⟩ := locate_found_sound is_bid s.levels p hf
      rw [side_remove_found_case is_bid s p hf]
      exact (side_remove_found_inv is_bid MAX_LEVELS s p _ hinv hixlt hpe).2.2.2
    · rw [side_remove_notfound_case is_bid s p hf]
      exact locate_not_found_not_mem is_bid s.levels p hinv.1 (by simpa using hf)
  constructor
  · intro p side
    cases side
    · show (book.withBid (side_remove true book.bidState p)).withBid
        (side_remove true (book.withBid (side_remove true book.bidState p)).bidState p) =
        book.withBid (side_remove true book.bidState p)
      rw [show (book.withBid (side_remove true book.bidState p)).bidState =
        side_remove true book.bidState p from rfl]
      rw [side_remove_absent true _ p (key true book.bidState p hbid)]
      rfl
    · show (book.withAsk (side_remove false book.askState p)).withAsk
        (side_remove false (book.withAsk (side_remove false book.askState p)).askState p) =
        book.withAsk (side_remove false book.askState p)
      rw [show (book.withAsk (side_remove false book.askState p)).askState =
        side_remove false book.askState p from rfl]
      rw [side_remove_absent false _ p (key false book.askState p hask)]
      rfl
  · intro p side habs
    cases side
    · show book.withBid (side_remove true book.bidState p) = book
      rw [side_remove_absent true book.bidState p habs]
      rfl
    · show book.withAsk (side_remove false book.askState p) = book
      rw [side_remove_absent false book.askState p habs]
      rfl

/-- If every stored level outranks `p`, the search reports not-found with
the insertion index one past the worst slot (`= length`), and conversely. -/
theorem locate_all_better (is_bid : Bool) (l : List Level) (p : Int)
    (hsort : Ranked is_bid l) (hall : ∀ y ∈ l, rk is_bid y.1 p) :
    (locate is_bid l p).1 = false ∧ (locate is_bid l p).2 = l.length := by
  have hf : (locate is_bid l p).1 = false := by
    cases hb : (locate is_bid l p).1
    · rfl
    · obtain ⟨hlt, hpe⟩ := locate_found_sound is_bid l p hb
      have hmem : l.getD (locate is_bid l p).2 ((0 : Int), (0 : Nat)) ∈ l := by
        rw [List.getD_eq_getElem l _ hlt]
        exact List.getElem_mem hlt
      exact absurd hpe (rk_ne (hall _ hmem))
  obtain ⟨hle, _, hsep⟩ := locate_spec is_bid l p hsort
  obtain ⟨htake, hdrop⟩ := hsep hf
  refine ⟨hf, ?_⟩
  by_contra hne
  have hlt : (locate is_bid l p).2 < l.length := lt_of_le_of_ne hle hne
  have hmem : l[(locate is_bid l p).2] ∈ l.drop (locate is_bid l p).2 := by
    refine List.mem_iff_getElem?.mpr ⟨0, ?_⟩
    rw [List.getElem?_drop]
    simpa using List.getElem?_eq_getElem hlt
  exact rk_asymm (hdrop _ hmem) (hall _ (List.getElem_mem hlt))

/-- On a ranked list, a not-found insertion index of `length` means every
level outranks `p`, and an index below `length` means some level does not. -/
theorem locate_notfound_length_iff (is_bid : Bool) (l : List Level) (p : Int)
    (hsort : Ranked is_bid l) (hf : (locate is_bid l p).1 = false) :
    l.length ≤ (locate is_bid l p).2 ↔ ∀ y ∈ l, rk is_bid y.1 p := by
  obtain ⟨hle, _, hsep⟩ := locate_spec is_bid l p hsort
  obtain ⟨htake, hdrop⟩ := hsep hf
  constructor
  · intro hlen y hy
    have heq : (locate is_bid l p).2 = l.length := le_antisymm hle hlen
    refine htake y ?_
    rw [heq, List.take_length]
    exact hy
  · intro hall
    exact le_of_eq (locate_all_better is_bid l p hsort hall).2.symm

/-! ### Claims C1 and C2 -/

/-- C1: behaviour of a fresh-price `Set` with positive quantity on a side
already holding `MAX_LEVELS` levels: the insertion index lands at or past
the worst slot exactly when the new price is out-ranked by every stored
level, in which case the whole book is unchanged (the update is dropped);
otherwise the worst (last) level is evicted, the new level is spliced in at
its sort-preserving index, and the totals change by the evicted quantity
and the new quantity. -/
theorem claim_C1_capacity_policy (book : OrderBookImpl) (side : Side)
    (p : Int) (q : Nat) (hinv : bookInv MAX_LEVELS book) (hq : q ≠ 0)
    (hfull : (book.sideState side).levels.length = MAX_LEVELS)
    (hnf : (locate side.isBid (book.sideState side).levels p).1 = false) :
    (MAX_LEVELS ≤ (locate side.isBid (book.sideState side).levels p).2 ↔
      ∀ y ∈ (book.sideState side).levels, rk side.isBid y.1 p) ∧
    (MAX_LEVELS ≤ (locate side.isBid (book.sideState side).levels p).2 →
      OrderBookImpl.apply_update MAX_LEVELS book (Update.Set p q side) = book) ∧
    ((locate side.isBid (book.sideState side).levels p).2 < MAX_LEVELS →
      ((OrderBookImpl.apply_update MAX_LEVELS book (Update.Set p q side)).sideState side).levels =
        insert_at (book.sideState side).levels.dropLast
          (locate side.isBid (book.sideState side).levels p).2 (p, q) ∧
      ((OrderBookImpl.apply_update MAX_LEVELS book (Update.Set p q side)).sideState side).total +
          ((book.sideState side).levels.getLast?.getD ((0 : Int), (0 : Nat))).2 =
        (book.sideState side).total + q) := by
  have hsinv : sideInv side.isBid MAX_LEVELS (book.sideState side) := by
    cases side
    · exact hinv.1
    · exact hinv.2
  have hnf' : ¬(locate side.isBid (book.sideState side).levels p).1 = true := by
    simp [hnf]
  have happly : (OrderBookImpl.apply_update MAX_LEVELS book (Update.Set p q side)).sideState side =
      side_set side.isBid MAX_LEVELS (book.sideState side) p q := by
    cases side <;> rfl
  refine ⟨?_, ?_, ?_⟩
  · rw [← hfull]
    exact locate_notfound_length_iff side.isBid (book.sideState side).levels p hsinv.1 hnf
  · intro hdx
    have hset : side_set side.isBid MAX_LEVELS (book.sideState side) p q =
        book.sideState side := by
      refine side_set_notfound_drop side.isBid MAX_LEVELS (book.sideState side) p q
        hnf' hq hfull ?_ ?_
      · rw [hfull]; norm_num [MAX_LEVELS]
      · rw [hfull]; exact hdx
    cases side
    · show book.withBid (side_set true MAX_LEVELS book.bidState p q) = book
      rw [show side_set true MAX_LEVELS book.bidState p q = book.bidState from hset]
      rfl
    · show book.withAsk (side_set false MAX_LEVELS book.askState p q) = book
      rw [show side_set false MAX_LEVELS book.askState p q = book.askState from hset]
      rfl
  · intro hdx
    obtain ⟨hsort, hpos, hlen, hbest, hsecond, htot⟩ := hsinv
    have hixlt : (locate side.isBid (book.sideState side).levels p).2 <
        (book.sideState side).levels.length := by rw [hfull]; exact hdx
    have hset := side_set_notfound_evict side.isBid MAX_LEVELS (book.sideState side)
      p q hnf' hq hfull hixlt
    have hlen2 : 2 ≤ (book.sideState side).levels.length := by
      rw [hfull]; norm_num [MAX_LEVELS]
    have hnn : (book.sideState side).levels ≠ [] := by
      intro he; rw [he] at hlen2; simp at hlen2
    have hglast : (book.sideState side).levels.getLast?.getD ((0 : Int), (0 : Nat)) =
        (book.sideState side).levels.getLast hnn := by
      rw [List.getLast?_eq_getLast _ hnn]; rfl
    have hsplitlast : (book.sideState side).levels.dropLast ++
        [(book.sideState side).levels.getLast hnn] = (book.sideState side).levels :=
      List.dropLast_append_getLast hnn
    have hqlast : qsum (book.sideState side).levels.dropLast +
        ((book.sideState side).levels.getLast hnn).2 = qsum (book.sideState side).levels := by
      conv_rhs => rw [← hsplitlast]
      rw [qsum_append, qsum_cons, qsum_nil]
      omega
    have hdlt : (book.sideState side).levels.dropLast =
        (book.sideState side).levels.take ((book.sideState side).levels.length - 1) :=
      List.dropLast_eq_take _
    obtain ⟨_, _, hsep⟩ := locate_spec side.isBid (book.sideState side).levels p hsort
    obtain ⟨htake, hdrop⟩ := hsep hnf
    have hins := side_insert_new_inv side.isBid MAX_LEVELS
      ⟨(book.sideState side).levels.dropLast, (book.sideState side).best,
        (book.sideState side).second,
        (book.sideState side).total -
          ((book.sideState side).levels.getLast?.getD ((0 : Int), (0 : Nat))).2⟩
      (locate side.isBid (book.sideState side).levels p).2 p q
      (List.Pairwise.sublist (List.dropLast_sublist _) hsort)
      (fun y hy => hpos y (List.mem_of_mem_dropLast hy))
      (by show (book.sideState side).levels.dropLast.length < MAX_LEVELS
          rw [List.length_dropLast, hfull]
          norm_num [MAX_LEVELS])
      (by show (locate side.isBid (book.sideState side).levels p).2 ≤
            (book.sideState side).levels.dropLast.length
          rw [List.length_dropLast]
          omega)
      (by show ∀ y ∈ (book.sideState side).levels.dropLast.take
            (locate side.isBid (book.sideState side).levels p).2, _
          intro y hy
          refine htake y ?_
          rw [hdlt, List.take_take] at hy
          have hmin : (locate side.isBid (book.sideState side).levels p).2 ⊓
              ((book.sideState side).levels.length - 1) =
              (locate side.isBid (book.sideState side).levels p).2 := by omega
          rw [hmin] at hy
          exact hy)
      (by show ∀ y ∈ (book.sideState side).levels.dropLast.drop
            (locate side.isBid (book.sideState side).levels p).2, _
          intro y hy
          refine hdrop y ?_
          rw [hdlt, List.drop_take] at hy
          exact List.mem_of_mem_take hy)
      (by show (book.sideState side).best = _
          rw [hbest, List.getElem?_dropLast, if_pos (by omega)])
      (by by_cases hlen3 : 3 ≤ (book.sideState side).levels.length
          · refine Or.inl ?_
            show (book.sideState side).second = _
            rw [hsecond, List.getElem?_dropLast, if_pos (by omega)]
          · exfalso
            rw [hfull] at hlen3
            exact hlen3 (by norm_num [MAX_LEVELS]))
      hq
      (by show (book.sideState side).total - _ = qsum (book.sideState side).levels.dropLast
          rw [hglast, htot]
          omega)
    rw [happly, hset]
    refine ⟨hins.2.1, ?_⟩
    rw [hins.2.2]
    show (book.sideState side).total -
        ((book.sideState side).levels.getLast?.getD ((0 : Int), (0 : Nat))).2 + q +
        ((book.sideState side).levels.getLast?.getD ((0 : Int), (0 : Nat))).2 =
      (book.sideState side).total + q
    rw [hglast, htot]
    omega

/-- The level list written by `side_insert_new` is always the splice. -/
theorem side_insert_new_levels (is_bid : Bool) (s : SideState) (idx : Nat)
    (price : Int) (q : Nat) :
    (side_insert_new is_bid s idx price q).levels = insert_at s.levels idx (price, q) := by
  rcases hsb : s.best with _ | b
  · simp only [side_insert_new, hsb]
  · simp only [side_insert_new, hsb]
    split_ifs <;> rfl

/-- Looking a present `(p, q)` level up on a ranked list finds it. -/
theorem locate_lookup_mem (is_bid : Bool) (l : List Level) (p : Int) (q : Nat)
    (hsort : Ranked is_bid l) (hmem : (p, q) ∈ l) :
    (locate is_bid l p).1 = true ∧
    (l.getD (locate is_bid l p).2 ((0 : Int), (0 : Nat))).2 = q := by
  have hf : (locate is_bid l p).1 = true := locate_mem_found is_bid l p hsort hmem rfl
  obtain ⟨hlt, hpe⟩ := locate_found_sound is_bid l p hf
  have hgd : l.getD (locate is_bid l p).2 ((0 : Int), (0 : Nat)) =
      l[(locate is_bid l p).2] := List.getD_eq_getElem l _ hlt
  refine ⟨hf, @ranked_mem_getElem_eq is_bid l hsort p q _ (locate is_bid l p).2 hmem ?_⟩
  rw [List.getElem?_eq_getElem hlt]
  have hfst : (l[(locate is_bid l p).2]).1 = p := by rw [← hgd]; exact hpe
  refine congrArg some (Prod.ext_iff.mpr ⟨?_, ?_⟩)
  · exact hfst
  · rw [hgd]

/-- After a non-dropped positive `Set`, the level `(p, q)` is present. -/
theorem side_set_result_mem (is_bid : Bool) (cap : Nat) (s : SideState)
    (p : Int) (q : Nat) (hinv : sideInv is_bid cap s) (hq : q ≠ 0)
    (hnodrop : ¬(s.levels.length = cap ∧ (locate is_bid s.levels p).1 = false ∧
        s.levels.length ≤ (locate is_bid s.levels p).2)) :
    (p, q) ∈ (side_set is_bid cap s p q).levels := by
  by_cases hf : (locate is_bid s.levels p).1 = true
  · obtain ⟨hixlt, hpe⟩ := locate_found_sound is_bid s.levels p hf
    rw [side_set_found_pos is_bid cap s p q hf hq]
    show (p, q) ∈ s.levels.set (locate is_bid s.levels p).2 _
    refine List.mem_iff_getElem?.mpr ⟨(locate is_bid s.levels p).2, ?_⟩
    rw [List.getElem?_set_self hixlt, hpe]
  · by_cases hful : s.levels.length = cap
    · have hixlt : (locate is_bid s.levels p).2 < s.levels.length := by
        rcases Nat.lt_or_ge (locate is_bid s.levels p).2 s.levels.length with h | h
        · exact h
        · exact absurd ⟨hful, by simpa using hf, h⟩ hnodrop
      rw [side_set_notfound_evict is_bid cap s p q hf hq hful hixlt,
        side_insert_new_levels]
      refine List.mem_iff_getElem?.mpr ⟨(locate is_bid s.levels p).2, ?_⟩
      exact insert_at_getElem?_self _ _ _ (by rw [List.length_dropLast]; omega)
    · rw [side_set_notfound_plain is_bid cap s p q hf hq hful,
        side_insert_new_levels]
      have hle := (locate_spec is_bid s.levels p hinv.1).1
      refine List.mem_iff_getElem?.mpr ⟨(locate is_bid s.levels p).2, ?_⟩
      exact insert_at_getElem?_self _ _ _ hle

/-- The lookup made by `get_quantity_at` on the side written by a
non-dropped positive `Set` returns `some q`. -/
theorem lookup_side_set (is_bid : Bool) (cap : Nat) (s : SideState)
    (p : Int) (q : Nat) (hcap : 2 ≤ cap) (hinv : sideInv is_bid cap s) (hq : q ≠ 0)
    (hnodrop : ¬(s.levels.length = cap ∧ (locate is_bid s.levels p).1 = false ∧
        s.levels.length ≤ (locate is_bid s.levels p).2)) :
    (if (locate is_bid (side_set is_bid cap s p q).levels p).1 then
      some (((side_set is_bid cap s p q).levels.getD
        (locate is_bid (side_set is_bid cap s p q).levels p).2 ((0 : Int), (0 : Nat))).2)
    else none) = some q := by
  have hpost := side_set_inv is_bid cap s p q hcap hinv
  have hmem := side_set_result_mem is_bid cap s p q hinv hq hnodrop
  obtain ⟨hf, hval⟩ := locate_lookup_mem is_bid _ p q hpost.1 hmem
  rw [if_pos hf, hval]

/-! ### A reachable-shaped book at full capacity -/

/-- `descList n` is the bid array `[(n, 1), (n − 1, 1), …, (1, 1)]`:
`n` levels in strictly descending price order, quantity one each. -/
def descList : Nat → List Level
  | 0 => []
  | n + 1 => ((n : Int) + 1, 1) :: descList n

theorem descList_length (n : Nat) : (descList n).length = n := by
  induction n with
  | zero => rfl
  | succ m ih => simp [descList, ih]

theorem descList_mem {n : Nat} {y : Level} (h : y ∈ descList n) :
    y.2 = 1 ∧ 1 ≤ y.1 ∧ y.1 ≤ (n : Int) := by
  induction n with
  | zero => cases h
  | succ m ih =>
    rw [descList, List.mem_cons] at h
    rcases h with rfl | h
    · refine ⟨rfl, by push_cast; omega, by push_cast; omega⟩
    · obtain ⟨h1, h2, h3⟩ := ih h
      refine ⟨h1, h2, ?_⟩
      push_cast
      push_cast at h3
      omega

theorem descList_ranked (n : Nat) : Ranked true (descList n) := by
  induction n with
  | zero => exact List.Pairwise.nil
  | succ m ih =>
    rw [descList]
    refine List.pairwise_cons.mpr ⟨?_, ih⟩
    intro y hy
    have h3 := (descList_mem hy).2.2
    rw [rk_true_iff]
    omega

theorem descList_qsum (n : Nat) : qsum (descList n) = n := by
  induction n with
  | zero => rfl
  | succ m ih =>
    rw [descList, qsum_cons, ih]
    omega

/-- A book whose bid side is at full capacity: bid prices `1024 … 1`. -/
def bigBook : OrderBookImpl :=
  ⟨descList MAX_LEVELS, [], some 1024, some 1023, none, none, 1024, 0⟩

theorem bigBook_unfold1 : descList MAX_LEVELS = ((1023 : Int) + 1, 1) :: descList 1023 :=
  rfl

theorem bigBook_unfold2 : descList 1023 = ((1022 : Int) + 1, 1) :: descList 1022 :=
  rfl

theorem bigBook_inv : bookInv MAX_LEVELS bigBook := by
  constructor
  · refine ⟨descList_ranked MAX_LEVELS, ?_, ?_, ?_, ?_, ?_⟩
    · intro y hy
      rw [(descList_mem hy).1]
      norm_num
    · show (descList MAX_LEVELS).length ≤ MAX_LEVELS
      rw [descList_length]
    · show some (1024 : Int) = Option.map Prod.fst (descList MAX_LEVELS)[0]?
      rw [bigBook_unfold1]
      norm_num
    · show some (1023 : Int) = Option.map Prod.fst (descList MAX_LEVELS)[1]?
      rw [bigBook_unfold1, bigBook_unfold2]
      norm_num
    · show (1024 : Nat) = qsum (descList MAX_LEVELS)
      rw [descList_qsum]
      rfl
  · refine ⟨List.Pairwise.nil, ?_, Nat.zero_le _, rfl, rfl, rfl⟩
    intro y h
    cases h

theorem bigBook_all_better : ∀ y ∈ bigBook.bids, rk true y.1 0 := by
  intro y hy
  have h2 := (descList_mem hy).2.1
  rw [rk_true_iff]
  omega

/-- C2 (counterexample to the claim as stated): on a well-formed book whose
bid side is at full capacity, `Set{0, 5, Bid}` for a price worse than the
current worst is dropped by the capacity policy, so the immediate
`get_quantity_at(0, Bid)` returns `none`, not `Some 5`. -/
theorem claim_C2_counterexample :
    bookInv MAX_LEVELS bigBook ∧ (5 : Nat) ≠ 0 ∧
    (OrderBookImpl.apply_update MAX_LEVELS bigBook
      (Update.Set 0 5 Side.Bid)).get_quantity_at 0 Side.Bid ≠ some 5 := by
  have hlb := locate_all_better true bigBook.bids 0 (descList_ranked MAX_LEVELS)
    bigBook_all_better
  have hfull : bigBook.bidState.levels.length = MAX_LEVELS := by
    show (descList MAX_LEVELS).length = MAX_LEVELS
    rw [descList_length]
  have heq : OrderBookImpl.apply_update MAX_LEVELS bigBook (Update.Set 0 5 Side.Bid) =
      bigBook := by
    show bigBook.withBid (side_set true MAX_LEVELS bigBook.bidState 0 5) = bigBook
    rw [side_set_notfound_drop true MAX_LEVELS bigBook.bidState 0 5
      (by show ¬(locate true bigBook.bids 0).1 = true
          rw [hlb.1]; exact Bool.false_ne_true)
      (by norm_num) hfull
      (by rw [hfull]; norm_num [MAX_LEVELS])
      (by show bigBook.bids.length ≤ (locate true bigBook.bids 0).2
          exact le_of_eq hlb.2.symm)]
    rfl
  refine ⟨bigBook_inv, by norm_num, ?_⟩
  rw [heq]
  show (if (locate_bid bigBook.bids 0).1 then
    some ((bigBook.bids.getD (locate_bid bigBook.bids 0).2 ((0 : Int), (0 : Nat))).2)
    else none) ≠ some 5
  have hlb1 : (locate_bid bigBook.bids 0).1 = false := hlb.1
  rw [hlb1]
  simp

/-- C2 (amended): `Set{p, q, side}` with `q > 0` followed immediately by
`get_quantity_at(p, side)` returns `Some q` on every well-formed book state,
unless the side is at capacity with `p` absent and ranked at or past the
current worst level, in which case the capacity policy drops the update. -/
theorem claim_C2_roundtrip_amended (book : OrderBookImpl) (side : Side)
    (p : Int) (q : Nat) (hinv : bookInv MAX_LEVELS book) (hq : q ≠ 0)
    (hnodrop : ¬((book.sideState side).levels.length = MAX_LEVELS ∧
      (locate side.isBid (book.sideState side).levels p).1 = false ∧
      (book.sideState side).levels.length ≤
        (locate side.isBid (book.sideState side).levels p).2)) :
    (OrderBookImpl.apply_update MAX_LEVELS book
      (Update.Set p q side)).get_quantity_at p side = some q := by
  cases side
  · exact lookup_side_set true MAX_LEVELS book.bidState p q
      (by norm_num [MAX_LEVELS]) hinv.1 hq hnodrop
  · exact lookup_side_set false MAX_LEVELS book.askState p q
      (by norm_num [MAX_LEVELS]) hinv.2 hq hnodrop

/-! ### The width-faithful layer: `u64` / `i64` machine arithmetic

The Rust source computes the running totals with `u64` `+=` / `-=` and the
spread with an `i64` subtraction.  In release builds these wrap modulo the
type's width; in debug builds they panic on overflow or underflow.  The
definitions below repeat the side operations verbatim except that every
total update goes through wrapping `u64` arithmetic, and add the wrapped
`i64` spread.  `ReachableW` is reachability of this width-faithful machine
under updates whose price and quantity fit the Rust `i64` / `u64` types. -/

/-- `2 ^ 64`: the modulus of the source's `u64` `Quantity` arithmetic. -/
def U64 : Nat := 2 ^ 64

/-- Wrapping `u64` addition: the release-mode semantics of `+=` on a
running total. -/
def wadd (a b : Nat) : Nat := (a + b) % U64

/-- Wrapping `u64` subtraction (for operands below `2 ^ 64`): the
release-mode semantics of `-=` on a running total. -/
def wsub (a b : Nat) : Nat := (a + (U64 - b)) % U64

/-- Wrapping `i64` interpretation of an exact integer: the release-mode
semantics of the `ask - bid` subtraction in `get_spread`. -/
def wrap64 (x : Int) : Int := (x + 2 ^ 63) % 2 ^ 64 - 2 ^ 63

/-- `p` fits the Rust `Price` type `i64`. -/
def inI64 (p : Int) : Prop := -(2 ^ 63) ≤ p ∧ p < 2 ^ 63

/-- The update's price fits `i64` and its quantity fits `u64` — every
`Update` value the Rust engine can receive satisfies this by its type. -/
def updateOk : Update → Prop
  | Update.Set p q _ => inI64 p ∧ q < U64
  | Update.Remove p _ => inI64 p

/-- `side_insert_new` with the `total += quantity` performed in `u64`. -/
def side_insert_newW (is_bid : Bool) (s : SideState) (idx : Nat)
    (price : Int) (quantity : Nat) : SideState :=
  let levels' := insert_at s.levels idx (price, quantity)
  let total' := wadd s.total quantity
  match s.best with
  | none => ⟨levels', some price, none, total'⟩
  | some b =>
    if (is_bid && decide (price > b)) || (!is_bid && decide (price < b)) then
      ⟨levels', some price, s.best, total'⟩
    else if ((s.second.map fun sb =>
               (is_bid && decide (price > sb)) || (!is_bid && decide (price < sb))).getD true)
            && decide (price ≠ b) then
      ⟨levels', s.best, some price, total'⟩
    else
      ⟨levels', s.best, s.second, total'⟩

/-- `side_remove_found` with the `total -= removed` performed in `u64`. -/
def side_remove_foundW (is_bid : Bool) (s : SideState) (price : Int) (idx : Nat) :
    SideState :=
  let removed := (remove_at s.levels idx).1.2
  let levels' := (remove_at s.levels idx).2
  let total' := wsub s.total removed
  let removed_best := (s.best.map fun b => decide (b = price)).getD false
  if removed_best then
    let tops := recompute_top2 levels' is_bid
    ⟨levels', tops.1, tops.2, total'⟩
  else
    ⟨levels', s.best,
      maybe_update_second_best levels' s.best s.second price is_bid, total'⟩

/-- `side_set` with every total update performed in `u64`. -/
def side_setW (is_bid : Bool) (cap : Nat) (s : SideState)
    (price : Int) (quantity : Nat) : SideState :=
  let fi := locate is_bid s.levels price
  let found := fi.1
  let idx := fi.2
  if found then
    let prev := (s.levels.getD idx ((0 : Int), (0 : Nat))).2
    if quantity = 0 then
      side_remove_foundW is_bid s price idx
    else
      let levels' := s.levels.set idx ((s.levels.getD idx ((0 : Int), (0 : Nat))).1, quantity)
      let total' := if prev ≤ quantity then wadd s.total (quantity - prev)
                    else wsub s.total (prev - quantity)
      ⟨levels', s.best, s.second, total'⟩
  else
    if quantity = 0 then s
    else if s.levels.length = cap ∧ 0 < s.levels.length ∧ s.levels.length ≤ idx then
      s
    else if s.levels.length = cap then
      let dropped := (s.levels.getLast?.getD ((0 : Int), (0 : Nat))).2
      side_insert_newW is_bid
        ⟨s.levels.dropLast, s.best, s.second, wsub s.total dropped⟩ idx price quantity
    else
      side_insert_newW is_bid s idx price quantity

/-- `side_remove` with the total update performed in `u64`. -/
def side_removeW (is_bid : Bool) (s : SideState) (price : Int) : SideState :=
  let fi := locate is_bid s.levels price
  if fi.1 then side_remove_foundW is_bid s price fi.2 else s

/-- `apply_update` with every total update performed in `u64`: the
release-mode machine. -/
def apply_updateW (cap : Nat) (book : OrderBookImpl) (update : Update) :
    OrderBookImpl :=
  match update with
  | Update.Set price quantity side =>
    match side with
    | Side.Bid => book.withBid (side_setW true cap book.bidState price quantity)
    | Side.Ask => book.withAsk (side_setW false cap book.askState price quantity)
  | Update.Remove price side =>
    match side with
    | Side.Bid => book.withBid (side_removeW true book.bidState price)
    | Side.Ask => book.withAsk (side_removeW false book.askState price)

/-- `get_spread` with the `ask - bid` subtraction performed in wrapping
`i64` (release mode). -/
def get_spreadW (book : OrderBookImpl) : Option Int :=
  match book.best_ask, book.best_bid with
  | some ask, some bid => some (wrap64 (ask - bid))
  | _, _ => none

/-- `get_spread` with the `ask - bid` subtraction overflow-checked (debug
mode): `none` models the panic when the difference leaves the `i64` range. -/
def get_spreadChecked (book : OrderBookImpl) : Option (Option Int) :=
  match book.best_ask, book.best_bid with
  | some ask, some bid =>
    if -(2 ^ 63) ≤ ask - bid ∧ ask - bid < 2 ^ 63 then some (some (ask - bid))
    else none
  | _, _ => some none

/-- States reachable from `new()` on the width-faithful machine, under
updates whose components fit the Rust integer types. -/
inductive ReachableW (cap : Nat) : OrderBookImpl → Prop
  | base : ReachableW cap OrderBookImpl.new
  | step {book : OrderBookImpl} (u : Update) (hu : updateOk u) :
      ReachableW cap book → ReachableW cap (apply_updateW cap book u)

/-- A side state with its total reduced to the `u64` it is stored in. -/
def wrapS (s : SideState) : SideState :=
  ⟨s.levels, s.best, s.second, s.total % U64⟩

/-- A book with both totals reduced to the `u64` they are stored in. -/
def wrapTotals (b : OrderBookImpl) : OrderBookImpl :=
  ⟨b.bids, b.asks, b.best_bid, b.second_best_bid, b.best_ask, b.second_best_ask,
    b.total_bid_qty % U64, b.total_ask_qty % U64⟩

theorem wrapS_mk (L : List Level) (B S2 : Option Int) (T : Nat) :
    wrapS ⟨L, B, S2, T⟩ = ⟨L, B, S2, T % U64⟩ := rfl

theorem wadd_mod (n m : Nat) : wadd (n % U64) m = (n + m) % U64 := by
  rw [wadd, Nat.mod_add_mod]

theorem wsub_mod (n d : Nat) (hdn : d ≤ n) (hd : d < U64) :
    wsub (n % U64) d = (n - d) % U64 := by
  rw [wsub, Nat.mod_add_mod]
  have h1 : n + (U64 - d) = (n - d) + U64 := by omega
  rw [h1, Nat.add_mod_right]

/-- An exact value inside the `i64` range is its own wrapped interpretation. -/
theorem wrap64_eq_self (x : Int) (h1 : -(2 ^ 63) ≤ x) (h2 : x < 2 ^ 63) :
    wrap64 x = x := by
  rw [wrap64]
  have hp : (2 : Int) ^ 64 = 2 ^ 63 + 2 ^ 63 := by norm_num
  have h0 : (0 : Int) ≤ x + 2 ^ 63 := by omega
  have hlt : x + 2 ^ 63 < 2 ^ 64 := by omega
  rw [Int.emod_eq_of_lt h0 hlt]
  omega

/-! ### Branch characterizations of `side_setW` and `side_removeW` -/

theorem side_setW_found_zero (is_bid : Bool) (cap : Nat) (s : SideState)
    (price : Int) (hf : (locate is_bid s.levels price).1 = true) :
    side_setW is_bid cap s price 0 =
      side_remove_foundW is_bid s price (locate is_bid s.levels price).2 := by
  rw [side_setW]
  rw [if_pos hf, if_pos rfl]

theorem side_setW_found_pos (is_bid : Bool) (cap : Nat) (s : SideState)
    (price : Int) (q : Nat)
    (hf : (locate is_bid s.levels price).1 = true) (hq : q ≠ 0) :
    side_setW is_bid cap s price q =
      ⟨s.levels.set (locate is_bid s.levels price).2
          ((s.levels.getD (locate is_bid s.levels price).2 ((0 : Int), (0 : Nat))).1, q),
        s.best, s.second,
        if (s.levels.getD (locate is_bid s.levels price).2 ((0 : Int), (0 : Nat))).2 ≤ q then
          wadd s.total (q - (s.levels.getD (locate is_bid s.levels price).2 ((0 : Int), (0 : Nat))).2)
        else
          wsub s.total ((s.levels.getD (locate is_bid s.levels price).2 ((0 : Int), (0 : Nat))).2 - q)⟩ := by
  rw [side_setW]
  rw [if_pos hf, if_neg hq]

theorem side_setW_notfound_zero (is_bid : Bool) (cap : Nat) (s : SideState)
    (price : Int) (hf : ¬(locate is_bid s.levels price).1 = true) :
    side_setW is_bid cap s price 0 = s := by
  rw [side_setW]
  rw [if_neg hf, if_pos rfl]

theorem side_setW_notfound_drop (is_bid : Bool) (cap : Nat) (s : SideState)
    (price : Int) (q : Nat)
    (hf : ¬(locate is_bid s.levels price).1 = true) (hq : q ≠ 0)
    (hfull : s.levels.length = cap) (hpos : 0 < s.levels.length)
    (hidx : s.levels.length ≤ (locate is_bid s.levels price).2) :
    side_setW is_bid cap s price q = s := by
  rw [side_setW]
  rw [if_neg hf, if_neg hq, if_pos ⟨hfull, hpos, hidx⟩]

theorem side_setW_notfound_evict (is_bid : Bool) (cap : Nat) (s : SideState)
    (price : Int) (q : Nat)
    (hf : ¬(locate is_bid s.levels price).1 = true) (hq : q ≠ 0)
    (hfull : s.levels.length = cap)
    (hidx : (locate is_bid s.levels price).2 < s.levels.length) :
    side_setW is_bid cap s price q =
      side_insert_newW is_bid
        ⟨s.levels.dropLast, s.best, s.second,
          wsub s.total (s.levels.getLast?.getD ((0 : Int), (0 : Nat))).2⟩
        (locate is_bid s.levels price).2 price q := by
  rw [side_setW]
  rw [if_neg hf, if_neg hq, if_neg (by omega), if_pos hfull]

theorem side_setW_notfound_plain (is_bid : Bool) (cap : Nat) (s : SideState)
    (price : Int) (q : Nat)
    (hf : ¬(locate is_bid s.levels price).1 = true) (hq : q ≠ 0)
    (hnfull : ¬s.levels.length = cap) :
    side_setW is_bid cap s price q =
      side_insert_newW is_bid s (locate is_bid s.levels price).2 price q := by
  rw [side_setW]
  rw [if_neg hf, if_neg hq, if_neg (by simp [hnfull]), if_neg hnfull]

theorem side_removeW_found_case (is_bid : Bool) (s : SideState) (price : Int)
    (hf : (locate is_bid s.levels price).1 = true) :
    side_removeW is_bid s price =
      side_remove_foundW is_bid s price (locate is_bid s.levels price).2 := by
  rw [side_removeW]
  rw [if_pos hf]

theorem side_removeW_notfound_case (is_bid : Bool) (s : SideState) (price : Int)
    (hf : ¬(locate is_bid s.levels price).1 = true) :
    side_removeW is_bid s price = s := by
  rw [side_removeW]
  rw [if_neg hf]

/-! ### Simulation: the wrapping machine tracks the exact one modulo `2^64`

The level lists and caches of `side_setW` / `side_removeW` evolve exactly as
in the exact embedding, and the wrapped total is the exact total reduced
modulo `2^64` — provided every stored quantity and the incoming quantity fit
`u64`, which `ReachableW` guarantees. -/

theorem side_insert_newW_sim (is_bid : Bool) (s : SideState) (idx : Nat)
    (price : Int) (q : Nat) :
    side_insert_newW is_bid (wrapS s) idx price q =
      wrapS (side_insert_new is_bid s idx price q) := by
  have hWmk : wrapS s = ⟨s.levels, s.best, s.second, s.total % U64⟩ := rfl
  rw [hWmk, side_insert_newW, side_insert_new]
  dsimp only
  rcases hsb : s.best with _ | b
  · dsimp only
    rw [wrapS_mk, wadd_mod]
  · dsimp only
    by_cases h1 : ((is_bid && decide (price > b)) || (!is_bid && decide (price < b))) = true
    · rw [if_pos h1, if_pos h1, wrapS_mk, wadd_mod]
    · rw [if_neg h1, if_neg h1]
      by_cases h2 : (((s.second.map fun sb =>
            (is_bid && decide (price > sb)) || (!is_bid && decide (price < sb))).getD true)
          && decide (price ≠ b)) = true
      · rw [if_pos h2, if_pos h2, wrapS_mk, wadd_mod]
      · rw [if_neg h2, if_neg h2, wrapS_mk, wadd_mod]

theorem side_remove_foundW_sim (is_bid : Bool) (s : SideState) (price : Int)
    (idx : Nat)
    (hle : (s.levels.getD idx ((0 : Int), (0 : Nat))).2 ≤ s.total)
    (hlt : (s.levels.getD idx ((0 : Int), (0 : Nat))).2 < U64) :
    side_remove_foundW is_bid (wrapS s) price idx =
      wrapS (side_remove_found is_bid s price idx) := by
  have hWmk : wrapS s = ⟨s.levels, s.best, s.second, s.total % U64⟩ := rfl
  rw [hWmk, side_remove_foundW, side_remove_found]
  dsimp only [remove_at]
  by_cases hb : ((s.best.map fun b => decide (b = price)).getD false) = true
  · rw [if_pos hb, if_pos hb, wrapS_mk, wsub_mod s.total _ hle hlt]
  · rw [if_neg hb, if_neg hb, wrapS_mk, wsub_mod s.total _ hle hlt]

theorem side_setW_sim (is_bid : Bool) (cap : Nat) (s : SideState)
    (price : Int) (q : Nat) (hcap : 2 ≤ cap) (hinv : sideInv is_bid cap s)
    (hqb : ∀ y ∈ s.levels, y.2 < U64) (hq : q < U64) :
    side_setW is_bid cap (wrapS s) price q = wrapS (side_set is_bid cap s price q) := by
  obtain ⟨hsort, hpos, hlen, hbest, hsecond, htot⟩ := hinv
  have hWmk : wrapS s = ⟨s.levels, s.best, s.second, s.total % U64⟩ := rfl
  rw [hWmk]
  by_cases hf : (locate is_bid s.levels price).1 = true
  · obtain ⟨hixlt, hpe⟩ := locate_found_sound is_bid s.levels price hf
    have hmem : s.levels.getD (locate is_bid s.levels price).2 ((0 : Int), (0 : Nat)) ∈
        s.levels := by
      rw [List.getD_eq_getElem s.levels _ hixlt]
      exact List.getElem_mem hixlt
    have hple : (s.levels.getD (locate is_bid s.levels price).2 ((0 : Int), (0 : Nat))).2 ≤
        s.total := htot ▸ single_le_qsum hmem
    have hplt : (s.levels.getD (locate is_bid s.levels price).2 ((0 : Int), (0 : Nat))).2 <
        U64 := hqb _ hmem
    by_cases hq0 : q = 0
    · subst hq0
      rw [side_setW_found_zero is_bid cap ⟨s.levels, s.best, s.second, s.total % U64⟩ price hf]
      dsimp only
      rw [side_set_found_zero is_bid cap s price hf]
      rw [← hWmk]
      exact side_remove_foundW_sim is_bid s price _ hple hplt
    · rw [side_setW_found_pos is_bid cap ⟨s.levels, s.best, s.second, s.total % U64⟩
        price q hf hq0]
      dsimp only
      rw [side_set_found_pos is_bid cap s price q hf hq0]
      rw [wrapS_mk]
      by_cases hpq : (s.levels.getD (locate is_bid s.levels price).2 ((0 : Int), (0 : Nat))).2 ≤ q
      · rw [if_pos hpq, if_pos hpq, wadd_mod]
      · rw [if_neg hpq, if_neg hpq, wsub_mod s.total _ (by omega) (by omega)]
  · by_cases hq0 : q = 0
    · subst hq0
      rw [side_setW_notfound_zero is_bid cap ⟨s.levels, s.best, s.second, s.total % U64⟩
        price hf]
      rw [side_set_notfound_zero is_bid cap s price hf]
      rw [hWmk]
    · by_cases hful : s.levels.length = cap
      · by_cases hdx : 0 < s.levels.length ∧
            s.levels.length ≤ (locate is_bid s.levels price).2
        · rw [side_setW_notfound_drop is_bid cap ⟨s.levels, s.best, s.second, s.total % U64⟩
            price q hf hq0 hful hdx.1 hdx.2]
          rw [side_set_notfound_drop is_bid cap s price q hf hq0 hful hdx.1 hdx.2]
          rw [hWmk]
        · have hlen2 : 2 ≤ s.levels.length := hful ▸ hcap
          have hixlt : (locate is_bid s.levels price).2 < s.levels.length := by
            rcases Nat.lt_or_ge (locate is_bid s.levels price).2 s.levels.length with h | h
            · exact h
            · exact absurd ⟨by omega, h⟩ hdx
          rw [side_setW_notfound_evict is_bid cap ⟨s.levels, s.best, s.second, s.total % U64⟩
            price q hf hq0 hful hixlt]
          rw [side_set_notfound_evict is_bid cap s price q hf hq0 hful hixlt]
          dsimp only
          have hnn : s.levels ≠ [] := by
            intro he
            rw [he] at hlen2
            simp at hlen2
          have hdle : (s.levels.getLast?.getD ((0 : Int), (0 : Nat))).2 ≤ s.total := by
            rw [List.getLast?_eq_getLast _ hnn]
            exact htot ▸ single_le_qsum (List.getLast_mem hnn)
          have hdlt : (s.levels.getLast?.getD ((0 : Int), (0 : Nat))).2 < U64 := by
            rw [List.getLast?_eq_getLast _ hnn]
            exact hqb _ (List.getLast_mem hnn)
          rw [wsub_mod s.total _ hdle hdlt]
          rw [show (⟨s.levels.dropLast, s.best, s.second,
              (s.total - (s.levels.getLast?.getD ((0 : Int), (0 : Nat))).2) % U64⟩ : SideState) =
            wrapS ⟨s.levels.dropLast, s.best, s.second,
              s.total - (s.levels.getLast?.getD ((0 : Int), (0 : Nat))).2⟩ from rfl]
          exact side_insert_newW_sim is_bid _ _ price q
      · rw [side_setW_notfound_plain is_bid cap ⟨s.levels, s.best, s.second, s.total % U64⟩
          price q hf hq0 hful]
        dsimp only
        rw [side_set_notfound_plain is_bid cap s price q hf hq0 hful]
        rw [← hWmk]
        exact side_insert_newW_sim is_bid s _ price q

theorem side_removeW_sim (is_bid : Bool) (cap : Nat) (s : SideState) (price : Int)
    (hinv : sideInv is_bid cap s) (hqb : ∀ y ∈ s.levels, y.2 < U64) :
    side_removeW is_bid (wrapS s) price = wrapS (side_remove is_bid s price) := by
  have hWmk : wrapS s = ⟨s.levels, s.best, s.second, s.total % U64⟩ := rfl
  by_cases hf : (locate is_bid s.levels price).1 = true
  · obtain ⟨hixlt, hpe⟩ := locate_found_sound is_bid s.levels price hf
    have hmem : s.levels.getD (locate is_bid s.levels price).2 ((0 : Int), (0 : Nat)) ∈
        s.levels := by
      rw [List.getD_eq_getElem s.levels _ hixlt]
      exact List.getElem_mem hixlt
    rw [hWmk]
    rw [side_removeW_found_case is_bid ⟨s.levels, s.best, s.second, s.total % U64⟩ price hf]
    dsimp only
    rw [side_remove_found_case is_bid s price hf]
    rw [← hWmk]
    exact side_remove_foundW_sim is_bid s price _
      (hinv.2.2.2.2.2 ▸ single_le_qsum hmem) (hqb _ hmem)
  · rw [hWmk]
    rw [side_removeW_notfound_case is_bid ⟨s.levels, s.best, s.second, s.total % U64⟩ price hf]
    rw [side_remove_notfound_case is_bid s price hf]
    rw [hWmk]

theorem apply_updateW_sim (cap : Nat) (b : OrderBookImpl) (u : Update)
    (hcap : 2 ≤ cap) (hinv : bookInv cap b)
    (hqb : ∀ y ∈ b.bids, y.2 < U64) (hqa : ∀ y ∈ b.asks, y.2 < U64)
    (hu : updateOk u) :
    apply_updateW cap (wrapTotals b) u =
      wrapTotals (OrderBookImpl.apply_update cap b u) := by
  rcases u with ⟨p, q, side⟩ | ⟨p, side⟩ <;> rcases side
  · show (wrapTotals b).withBid (side_setW true cap (wrapTotals b).bidState p q) =
      wrapTotals (b.withBid (side_set true cap b.bidState p q))
    rw [show (wrapTotals b).bidState = wrapS b.bidState from rfl]
    rw [side_setW_sim true cap b.bidState p q hcap hinv.1 hqb hu.2]
    rfl
  · show (wrapTotals b).withAsk (side_setW false cap (wrapTotals b).askState p q) =
      wrapTotals (b.withAsk (side_set false cap b.askState p q))
    rw [show (wrapTotals b).askState = wrapS b.askState from rfl]
    rw [side_setW_sim false cap b.askState p q hcap hinv.2 hqa hu.2]
    rfl
  · show (wrapTotals b).withBid (side_removeW true (wrapTotals b).bidState p) =
      wrapTotals (b.withBid (side_remove true b.bidState p))
    rw [show (wrapTotals b).bidState = wrapS b.bidState from rfl]
    rw [side_removeW_sim true cap b.bidState p hinv.1 hqb]
    rfl
  · show (wrapTotals b).withAsk (side_removeW false (wrapTotals b).askState p) =
      wrapTotals (b.withAsk (side_remove false b.askState p))
    rw [show (wrapTotals b).askState = wrapS b.askState from rfl]
    rw [side_removeW_sim false cap b.askState p hinv.2 hqa]
    rfl

/-! ### Stored quantities stay inside `u64` -/

theorem side_remove_found_levels (is_bid : Bool) (s : SideState) (price : Int)
    (idx : Nat) :
    (side_remove_found is_bid s price idx).levels =
      s.levels.take idx ++ s.levels.drop (idx + 1) := by
  rw [side_remove_found]
  dsimp only [remove_at]
  split <;> rfl

/-- Every level of a `Set` result is an old level or carries the new
quantity. -/
theorem side_set_mem_of (is_bid : Bool) (cap : Nat) (s : SideState)
    (price : Int) (q : Nat) :
    ∀ y ∈ (side_set is_bid cap s price q).levels, y ∈ s.levels ∨ y.2 = q := by
  intro y hy
  by_cases hf : (locate is_bid s.levels price).1 = true
  · by_cases hq0 : q = 0
    · subst hq0
      rw [side_set_found_zero is_bid cap s price hf, side_remove_found_levels] at hy
      rw [List.mem_append] at hy
      rcases hy with h | h
      · exact Or.inl ((List.take_sublist _ _).subset h)
      · exact Or.inl ((List.drop_sublist _ _).subset h)
    · rw [side_set_found_pos is_bid cap s price q hf hq0] at hy
      rcases List.mem_or_eq_of_mem_set hy with h | h
      · exact Or.inl h
      · right
        rw [h]
  · by_cases hq0 : q = 0
    · subst hq0
      rw [side_set_notfound_zero is_bid cap s price hf] at hy
      exact Or.inl hy
    · by_cases hful : s.levels.length = cap
      · by_cases hdx : 0 < s.levels.length ∧
            s.levels.length ≤ (locate is_bid s.levels price).2
        · rw [side_set_notfound_drop is_bid cap s price q hf hq0 hful hdx.1 hdx.2] at hy
          exact Or.inl hy
        · rw [side_set] at hy
          rw [if_neg hf, if_neg hq0, if_neg (fun hc => hdx ⟨hc.2.1, hc.2.2⟩),
            if_pos hful] at hy
          rw [side_insert_new_levels] at hy
          rcases insert_at_mem _ _ _ hy with h | h
          · right
            rw [h]
          · exact Or.inl ((List.dropLast_sublist _).subset h)
      · rw [side_set_notfound_plain is_bid cap s price q hf hq0 hful,
          side_insert_new_levels] at hy
        rcases insert_at_mem _ _ _ hy with h | h
        · right
          rw [h]
        · exact Or.inl h

/-- Every level of a `Remove` result is an old level. -/
theorem side_remove_mem_of (is_bid : Bool) (s : SideState) (price : Int) :
    ∀ y ∈ (side_remove is_bid s price).levels, y ∈ s.levels := by
  intro y hy
  by_cases hf : (locate is_bid s.levels price).1 = true
  · rw [side_remove_found_case is_bid s price hf, side_remove_found_levels] at hy
    rw [List.mem_append] at hy
    rcases hy with h | h
    · exact (List.take_sublist _ _).subset h
    · exact (List.drop_sublist _ _).subset h
  · rw [side_remove_notfound_case is_bid s price hf] at hy
    exact hy

theorem side_set_qbound (is_bid : Bool) (cap : Nat) (s : SideState)
    (price : Int) (q : Nat) (hqb : ∀ y ∈ s.levels, y.2 < U64) (hq : q < U64) :
    ∀ y ∈ (side_set is_bid cap s price q).levels, y.2 < U64 := by
  intro y hy
  rcases side_set_mem_of is_bid cap s price q y hy with h | h
  · exact hqb y h
  · rw [h]
    exact hq

theorem side_remove_qbound (is_bid : Bool) (s : SideState) (price : Int)
    (hqb : ∀ y ∈ s.levels, y.2 < U64) :
    ∀ y ∈ (side_remove is_bid s price).levels, y.2 < U64 :=
  fun y hy => hqb y (side_remove_mem_of is_bid s price y hy)

theorem apply_update_qbound (cap : Nat) (b : OrderBookImpl) (u : Update)
    (hqb : ∀ y ∈ b.bids, y.2 < U64) (hqa : ∀ y ∈ b.asks, y.2 < U64)
    (hu : updateOk u) :
    (∀ y ∈ (OrderBookImpl.apply_update cap b u).bids, y.2 < U64) ∧
    (∀ y ∈ (OrderBookImpl.apply_update cap b u).asks, y.2 < U64) := by
  rcases u with ⟨p, q, side⟩ | ⟨p, side⟩ <;> rcases side
  · exact ⟨side_set_qbound true cap b.bidState p q hqb hu.2, hqa⟩
  · exact ⟨hqb, side_set_qbound false cap b.askState p q hqa hu.2⟩
  · exact ⟨side_remove_qbound true b.bidState p hqb, hqa⟩
  · exact ⟨hqb, side_remove_qbound false b.askState p hqa⟩

theorem wrapTotals_new : wrapTotals OrderBookImpl.new = OrderBookImpl.new := rfl

/-- Every state of the width-faithful machine is the exact machine's state
over the same updates with its totals reduced modulo `2^64`, and the exact
machine's stored quantities all fit `u64`. -/
theorem reachableW_wrap {cap : Nat} (hcap : 2 ≤ cap) {b : OrderBookImpl}
    (h : ReachableW cap b) :
    ∃ bI, Reachable cap bI ∧ b = wrapTotals bI ∧
      (∀ y ∈ bI.bids, y.2 < U64) ∧ (∀ y ∈ bI.asks, y.2 < U64) := by
  induction h with
  | base =>
    refine ⟨OrderBookImpl.new, Reachable.base, wrapTotals_new.symm, ?_, ?_⟩
    · intro y hy
      simp [OrderBookImpl.new] at hy
    · intro y hy
      simp [OrderBookImpl.new] at hy
  | step u hu hr ih =>
    obtain ⟨bI, hR, hEq, hqb, hqa⟩ := ih
    obtain ⟨hb1, hb2⟩ := apply_update_qbound cap bI u hqb hqa hu
    refine ⟨OrderBookImpl.apply_update cap bI u, Reachable.step u hR, ?_, hb1, hb2⟩
    rw [hEq, apply_updateW_sim cap bI u hcap (reachable_bookInv hcap hR) hqb hqa hu]

/-! ### Pinning `locate` down on concrete lists -/

theorem locate_nil (is_bid : Bool) (p : Int) : locate is_bid [] p = (false, 0) := by
  rw [locate_eq_locateGo]
  rw [show ([] : List Level).length = 0 from rfl]
  rw [locateGo]
  rw [dif_neg (by omega : ¬(0 : Nat) < 0)]

/-- `locate` finds a stored price at its index. -/
theorem locate_found_at (is_bid : Bool) (l : List Level) (p : Int)
    (hsort : Ranked is_bid l) {j q : Nat} (hj : l[j]? = some (p, q)) :
    locate is_bid l p = (true, j) := by
  have hmem : (p, q) ∈ l := List.mem_iff_getElem?.mpr ⟨j, hj⟩
  have hf := locate_mem_found is_bid l p hsort hmem rfl
  obtain ⟨q2, hq2⟩ := (locate_spec is_bid l p hsort).2.1 hf
  exact Prod.ext_iff.mpr ⟨hf, ranked_fst_inj hsort hq2 hj rfl⟩

/-- `locate` reports an absent price as not-found at the sort-preserving
insertion index. -/
theorem locate_insert_point (is_bid : Bool) (l : List Level) (p : Int)
    (hsort : Ranked is_bid l) (habs : ∀ y ∈ l, y.1 ≠ p) (j : Nat)
    (hjle : j ≤ l.length)
    (hbefore : ∀ y ∈ l.take j, rk is_bid y.1 p)
    (hafter : ∀ y ∈ l.drop j, rk is_bid p y.1) :
    locate is_bid l p = (false, j) := by
  have hf : (locate is_bid l p).1 = false := by
    rcases hb : (locate is_bid l p).1 with _ | _
    · rfl
    · obtain ⟨hlt, hpe⟩ := locate_found_sound is_bid l p hb
      have hmem : l.getD (locate is_bid l p).2 ((0 : Int), (0 : Nat)) ∈ l := by
        rw [List.getD_eq_getElem l _ hlt]
        exact List.getElem_mem hlt
      exact absurd hpe (habs _ hmem)
  obtain ⟨htake, hdrop⟩ := (locate_spec is_bid l p hsort).2.2 hf
  have hile : (locate is_bid l p).2 ≤ l.length := (locate_spec is_bid l p hsort).1
  refine Prod.ext_iff.mpr ⟨hf, ?_⟩
  rcases Nat.lt_trichotomy (locate is_bid l p).2 j with hij | hij | hij
  · exfalso
    have hilen : (locate is_bid l p).2 < l.length := by omega
    have h1 : l[(locate is_bid l p).2] ∈ l.drop (locate is_bid l p).2 := by
      rw [List.drop_eq_getElem_cons hilen]
      exact List.mem_cons_self _ _
    have h2 : l[(locate is_bid l p).2] ∈ l.take j := by
      refine List.mem_iff_getElem?.mpr ⟨(locate is_bid l p).2, ?_⟩
      rw [List.getElem?_take, if_pos hij, List.getElem?_eq_getElem hilen]
    exact rk_asymm (hdrop _ h1) (hbefore _ h2)
  · exact hij
  · exfalso
    have hjlen : j < l.length := by omega
    have h1 : l[j] ∈ l.drop j := by
      rw [List.drop_eq_getElem_cons hjlen]
      exact List.mem_cons_self _ _
    have h2 : l[j] ∈ l.take (locate is_bid l p).2 := by
      refine List.mem_iff_getElem?.mpr ⟨j, ?_⟩
      rw [List.getElem?_take, if_pos hij, List.getElem?_eq_getElem hjlen]
    exact rk_asymm (hafter _ h1) (htake _ h2)

/-! ### Panic-checked shadows of the operations

The Rust source has two kinds of panic sites.  The structural ones — slice
indexing, `ArrayVec` element writes past the bound, `last().unwrap()` on an
empty side, and `ArrayVec::push` into a full array inside `insert_at` — are
guarded by the `…CheckedW` shadows below, with `none` modelling the panic;
the theorems following them show that on every `ReachableW` state these
guards always pass.  The arithmetic ones — `u64` underflow and overflow on
the running totals, checked in debug builds — are guarded by the `…Dbg`
shadows further below, and those guards can fail on reachable states (the
corrected claim C9). -/

/-- Structurally checked shadow of the `Set` arm of `apply_update`, over the
width-faithful step: `none` models an out-of-bounds index, a failing
`last().unwrap()`, or an over-capacity `insert_at`. -/
def side_setCheckedW (is_bid : Bool) (cap : Nat) (s : SideState)
    (price : Int) (quantity : Nat) : Option SideState :=
  let fi := locate is_bid s.levels price
  if fi.1 then
    -- `self.bids[idx]` read and write
    if fi.2 < s.levels.length then some (side_setW is_bid cap s price quantity)
    else none
  else
    if quantity = 0 then some s
    else if s.levels.length = cap then
      if 0 < s.levels.length ∧ s.levels.length ≤ fi.2 then some s
      else
        -- `self.bids.last().unwrap()`
        match s.levels.getLast? with
        | none => none
        | some _ =>
          -- then `insert_at`: the push must have room and the write index
          -- must be in range
          if s.levels.dropLast.length < cap ∧ fi.2 ≤ s.levels.dropLast.length then
            some (side_setW is_bid cap s price quantity)
          else none
    else
      -- `insert_at`: push must have room and the write index must be in range
      if s.levels.length < cap ∧ fi.2 ≤ s.levels.length then
        some (side_setW is_bid cap s price quantity)
      else none

/-- Structurally checked shadow of the `Remove` arm of `apply_update`. -/
def side_removeCheckedW (is_bid : Bool) (s : SideState) (price : Int) :
    Option SideState :=
  let fi := locate is_bid s.levels price
  if fi.1 then
    if fi.2 < s.levels.length then some (side_removeW is_bid s price)
    else none
  else some (side_removeW is_bid s price)

/-- Structurally checked shadow of `apply_update` over the width-faithful
step. -/
def apply_updateCheckedW (cap : Nat) (book : OrderBookImpl) (update : Update) :
    Option OrderBookImpl :=
  match update with
  | Update.Set price quantity side =>
    match side with
    | Side.Bid => (side_setCheckedW true cap book.bidState price quantity).map book.withBid
    | Side.Ask => (side_setCheckedW false cap book.askState price quantity).map book.withAsk
  | Update.Remove price side =>
    match side with
    | Side.Bid => (side_removeCheckedW true book.bidState price).map book.withBid
    | Side.Ask => (side_removeCheckedW false book.askState price).map book.withAsk

/-- Checked shadow of `get_quantity_at` (the only query that indexes). -/
def get_quantity_atChecked (book : OrderBookImpl) (price : Int) (side : Side) :
    Option (Option Nat) :=
  match side with
  | Side.Bid =>
    let fi := locate_bid book.bids price
    if fi.1 then (book.bids[fi.2]?).map (fun lv => some lv.2) else some none
  | Side.Ask =>
    let fi := locate_ask book.asks price
    if fi.1 then (book.asks[fi.2]?).map (fun lv => some lv.2) else some none

theorem side_setCheckedW_eq (is_bid : Bool) (cap : Nat) (s : SideState)
    (price : Int) (q : Nat) (hcap : 2 ≤ cap)
    (hsort : Ranked is_bid s.levels) (hlen : s.levels.length ≤ cap) :
    side_setCheckedW is_bid cap s price q = some (side_setW is_bid cap s price q) := by
  rw [side_setCheckedW]
  by_cases hf : (locate is_bid s.levels price).1 = true
  · obtain ⟨hlt, hpe⟩ := locate_found_sound is_bid s.levels price hf
    rw [if_pos hf, if_pos hlt]
  · rw [if_neg hf]
    have hle := (locate_spec is_bid s.levels price hsort).1
    by_cases hq0 : q = 0
    · subst hq0
      rw [if_pos rfl, side_setW_notfound_zero is_bid cap s price hf]
    · rw [if_neg hq0]
      by_cases hful : s.levels.length = cap
      · rw [if_pos hful]
        by_cases hdx : 0 < s.levels.length ∧ s.levels.length ≤ (locate is_bid s.levels price).2
        · rw [if_pos hdx, side_setW_notfound_drop is_bid cap s price q hf hq0 hful hdx.1 hdx.2]
        · rw [if_neg hdx]
          have hlen2 : 2 ≤ s.levels.length := hful ▸ hcap
          have hixlt : (locate is_bid s.levels price).2 < s.levels.length := by
            by_contra hc
            exact hdx ⟨by omega, by omega⟩
          have hnn : s.levels ≠ [] := by
            intro he
            rw [he] at hlen2
            simp at hlen2
          rw [List.getLast?_eq_getLast _ hnn]
          dsimp only
          have hcond : s.levels.dropLast.length < cap ∧
              (locate is_bid s.levels price).2 ≤ s.levels.dropLast.length :=
            ⟨by rw [List.length_dropLast]; omega,
              by rw [List.length_dropLast]; omega⟩
          rw [if_pos hcond]
      · have hcond : s.levels.length < cap ∧
            (locate is_bid s.levels price).2 ≤ s.levels.length :=
          ⟨lt_of_le_of_ne hlen hful, hle⟩
        rw [if_neg hful, if_pos hcond]

theorem side_removeCheckedW_eq (is_bid : Bool) (s : SideState) (price : Int) :
    side_removeCheckedW is_bid s price = some (side_removeW is_bid s price) := by
  rw [side_removeCheckedW]
  by_cases hf : (locate is_bid s.levels price).1 = true
  · rw [if_pos hf, if_pos (locate_found_sound is_bid s.levels price hf).1]
  · rw [if_neg hf]

theorem get_quantity_atChecked_eq (book : OrderBookImpl) (price : Int) (side : Side) :
    get_quantity_atChecked book price side = some (book.get_quantity_at price side) := by
  cases side
  · have hloc : locate true book.bids price = locate_bid book.bids price := rfl
    show (if (locate_bid book.bids price).1 then
        (book.bids[(locate_bid book.bids price).2]?).map (fun lv => some lv.2)
      else some none) =
      some (if (locate_bid book.bids price).1 then
        some ((book.bids.getD (locate_bid book.bids price).2 ((0 : Int), (0 : Nat))).2)
      else none)
    by_cases hf : (locate_bid book.bids price).1 = true
    · have hlt := (locate_found_sound true book.bids price (hloc ▸ hf)).1
      rw [hloc] at hlt
      rw [if_pos hf, if_pos hf, List.getElem?_eq_getElem hlt,
        List.getD_eq_getElem book.bids _ hlt]
      rfl
    · rw [if_neg hf, if_neg hf]
  · have hloc : locate false book.asks price = locate_ask book.asks price := rfl
    show (if (locate_ask book.asks price).1 then
        (book.asks[(locate_ask book.asks price).2]?).map (fun lv => some lv.2)
      else some none) =
      some (if (locate_ask book.asks price).1 then
        some ((book.asks.getD (locate_ask book.asks price).2 ((0 : Int), (0 : Nat))).2)
      else none)
    by_cases hf : (locate_ask book.asks price).1 = true
    · have hlt := (locate_found_sound false book.asks price (hloc ▸ hf)).1
      rw [hloc] at hlt
      rw [if_pos hf, if_pos hf, List.getElem?_eq_getElem hlt,
        List.getD_eq_getElem book.asks _ hlt]
      rfl
    · rw [if_neg hf, if_neg hf]

/-! ### Concrete instances for the theorems with hypotheses -/

/-- A small book reached from `new()` by four `Set` updates (the spec's
walk-through scenario). -/
def demoBook : OrderBookImpl :=
  OrderBookImpl.apply_update MAX_LEVELS
    (OrderBookImpl.apply_update MAX_LEVELS
      (OrderBookImpl.apply_update MAX_LEVELS
        (OrderBookImpl.apply_update MAX_LEVELS OrderBookImpl.new
          (Update.Set 10000 100 Side.Bid))
        (Update.Set 9950 150 Side.Bid))
      (Update.Set 10050 80 Side.Ask))
    (Update.Set 10100 120 Side.Ask)

theorem demoBook_reachable : Reachable MAX_LEVELS demoBook :=
  Reachable.step _ (Reachable.step _ (Reachable.step _ (Reachable.step _ Reachable.base)))

theorem bigBook_full : (bigBook.sideState Side.Bid).levels.length = MAX_LEVELS := by
  show (descList MAX_LEVELS).length = MAX_LEVELS
  exact descList_length MAX_LEVELS

theorem bigBook_locate_false :
    (locate Side.Bid.isBid (bigBook.sideState Side.Bid).levels 0).1 = false := by
  show (locate true bigBook.bids 0).1 = false
  exact (locate_all_better true bigBook.bids 0 (descList_ranked MAX_LEVELS)
    bigBook_all_better).1

theorem claim_C1_capacity_policy_witness :
    (bigBook.sideState Side.Bid).levels.length = MAX_LEVELS ∧ (5 : Nat) ≠ 0 ∧
    OrderBookImpl.apply_update MAX_LEVELS bigBook (Update.Set 0 5 Side.Bid) = bigBook := by
  refine ⟨bigBook_full, by norm_num, ?_⟩
  refine (claim_C1_capacity_policy bigBook Side.Bid 0 5 bigBook_inv (by norm_num)
    bigBook_full bigBook_locate_false).2.1 ?_
  show MAX_LEVELS ≤ (locate true bigBook.bids 0).2
  rw [(locate_all_better true bigBook.bids 0 (descList_ranked MAX_LEVELS)
    bigBook_all_better).2]
  exact le_of_eq bigBook_full.symm

theorem claim_C2_roundtrip_amended_witness :
    bookInv MAX_LEVELS OrderBookImpl.new ∧ (100 : Nat) ≠ 0 ∧
    (OrderBookImpl.apply_update MAX_LEVELS OrderBookImpl.new
      (Update.Set 10000 100 Side.Bid)).get_quantity_at 10000 Side.Bid = some 100 := by
  refine ⟨bookInv_new MAX_LEVELS, by norm_num, ?_⟩
  refine claim_C2_roundtrip_amended OrderBookImpl.new Side.Bid 10000 100
    (bookInv_new MAX_LEVELS) (by norm_num) ?_
  intro hc
  have h1 : (OrderBookImpl.new.sideState Side.Bid).levels.length = 0 := rfl
  rw [h1] at hc
  exact absurd hc.1 (by norm_num [MAX_LEVELS])

theorem claim_C3_sorted_invariant_witness :
    Reachable MAX_LEVELS demoBook ∧
    List.Pairwise (fun a b : Level => b.1 < a.1) demoBook.bids ∧
    List.Pairwise (fun a b : Level => a.1 < b.1) demoBook.asks :=
  ⟨demoBook_reachable,
   (claim_C3_sorted_invariant demoBook demoBook_reachable).1,
   (claim_C3_sorted_invariant demoBook demoBook_reachable).2.1⟩

theorem claim_C5_cache_invariant_witness :
    Reachable MAX_LEVELS demoBook ∧
    demoBook.best_bid = (demoBook.bids[0]?).map Prod.fst :=
  ⟨demoBook_reachable,
   (claim_C5_cache_invariant demoBook demoBook_reachable).1⟩

theorem claim_C7_remove_idempotent_witness :
    Reachable MAX_LEVELS demoBook ∧
    OrderBookImpl.apply_update MAX_LEVELS
      (OrderBookImpl.apply_update MAX_LEVELS demoBook (Update.Remove 10000 Side.Bid))
      (Update.Remove 10000 Side.Bid) =
    OrderBookImpl.apply_update MAX_LEVELS demoBook (Update.Remove 10000 Side.Bid) :=
  ⟨demoBook_reachable,
   (claim_C7_remove_idempotent demoBook demoBook_reachable).1 10000 Side.Bid⟩

/-! ### Debug-mode checks on the total arithmetic

Debug builds of the source panic when a `u64` `+=` overflows or a `-=`
underflows.  The shadows below guard exactly those sites on top of the
width-faithful step; the corrected claim C9 shows such a panic is
reachable. -/

/-- Debug-checked `u64` subtraction: `none` models the panic on underflow. -/
def subChecked (a b : Nat) : Option Nat := if b ≤ a then some (a - b) else none

/-- Debug-checked `u64` addition: `none` models the panic on overflow. -/
def addChecked (a b : Nat) : Option Nat := if a + b < U64 then some (a + b) else none

/-- `side_insert_newW` with the `total += quantity` overflow-checked. -/
def side_insert_newDbg (is_bid : Bool) (s : SideState) (idx : Nat)
    (price : Int) (quantity : Nat) : Option SideState :=
  match addChecked s.total quantity with
  | none => none
  | some total' =>
    let levels' := insert_at s.levels idx (price, quantity)
    some (match s.best with
    | none => ⟨levels', some price, none, total'⟩
    | some b =>
      if (is_bid && decide (price > b)) || (!is_bid && decide (price < b)) then
        ⟨levels', some price, s.best, total'⟩
      else if ((s.second.map fun sb =>
                 (is_bid && decide (price > sb)) || (!is_bid && decide (price < sb))).getD true)
              && decide (price ≠ b) then
        ⟨levels', s.best, some price, total'⟩
      else
        ⟨levels', s.best, s.second, total'⟩)

/-- `side_remove_foundW` with the `total -= removed` underflow-checked. -/
def side_remove_foundDbg (is_bid : Bool) (s : SideState) (price : Int) (idx : Nat) :
    Option SideState :=
  let removed := (remove_at s.levels idx).1.2
  let levels' := (remove_at s.levels idx).2
  match subChecked s.total removed with
  | none => none
  | some total' =>
    some (if (s.best.map fun b => decide (b = price)).getD false then
      let tops := recompute_top2 levels' is_bid
      ⟨levels', tops.1, tops.2, total'⟩
    else
      ⟨levels', s.best,
        maybe_update_second_best levels' s.best s.second price is_bid, total'⟩)

/-- The `Set` arm with every `u64` total update overflow/underflow-checked
(the structural sites are those of `side_setCheckedW`). -/
def side_setCheckedDbg (is_bid : Bool) (cap : Nat) (s : SideState)
    (price : Int) (quantity : Nat) : Option SideState :=
  let fi := locate is_bid s.levels price
  if fi.1 then
    let prev := (s.levels.getD fi.2 ((0 : Int), (0 : Nat))).2
    if quantity = 0 then
      side_remove_foundDbg is_bid s price fi.2
    else
      match (if prev ≤ quantity then addChecked s.total (quantity - prev)
             else subChecked s.total (prev - quantity)) with
      | none => none
      | some total' =>
        some ⟨s.levels.set fi.2 ((s.levels.getD fi.2 ((0 : Int), (0 : Nat))).1, quantity),
          s.best, s.second, total'⟩
  else
    if quantity = 0 then some s
    else if s.levels.length = cap ∧ 0 < s.levels.length ∧ s.levels.length ≤ fi.2 then
      some s
    else if s.levels.length = cap then
      let dropped := (s.levels.getLast?.getD ((0 : Int), (0 : Nat))).2
      match subChecked s.total dropped with
      | none => none
      | some t1 =>
        side_insert_newDbg is_bid ⟨s.levels.dropLast, s.best, s.second, t1⟩ fi.2 price quantity
    else
      side_insert_newDbg is_bid s fi.2 price quantity

/-- The `Remove` arm with the `u64` subtraction underflow-checked. -/
def side_removeDbg (is_bid : Bool) (s : SideState) (price : Int) :
    Option SideState :=
  let fi := locate is_bid s.levels price
  if fi.1 then side_remove_foundDbg is_bid s price fi.2 else some s

/-- `apply_update` with the `u64` total arithmetic overflow/underflow-checked,
as in a debug build. -/
def apply_updateCheckedDbg (cap : Nat) (book : OrderBookImpl) (update : Update) :
    Option OrderBookImpl :=
  match update with
  | Update.Set price quantity side =>
    match side with
    | Side.Bid => (side_setCheckedDbg true cap book.bidState price quantity).map book.withBid
    | Side.Ask => (side_setCheckedDbg false cap book.askState price quantity).map book.withAsk
  | Update.Remove price side =>
    match side with
    | Side.Bid => (side_removeDbg true book.bidState price).map book.withBid
    | Side.Ask => (side_removeDbg false book.askState price).map book.withAsk

theorem updateOk_set (p : Int) (q : Nat) (side : Side)
    (h1 : -(2 ^ 63) ≤ p) (h2 : p < 2 ^ 63) (h3 : q < U64) :
    updateOk (Update.Set p q side) := ⟨⟨h1, h2⟩, h3⟩

theorem updateOk_remove (p : Int) (side : Side)
    (h1 : -(2 ^ 63) ≤ p) (h2 : p < 2 ^ 63) :
    updateOk (Update.Remove p side) := ⟨h1, h2⟩

/-! ### Reachable states that overflow the machine arithmetic -/

/-- The exact book after `Set{1, 2^63, Bid}` then `Set{2, 2^63, Bid}`. -/
def bigQtyBookI : OrderBookImpl :=
  ⟨[((2 : Int), (2 ^ 63 : Nat)), ((1 : Int), (2 ^ 63 : Nat))], [],
    some 2, some 1, none, none, 2 ^ 64, 0⟩

/-- The same two `Set`s on the width-faithful machine: the stored bid
quantities sum to `2^64` but the `u64` bid total has wrapped to `0`. -/
def wrapBook : OrderBookImpl :=
  ⟨[((2 : Int), (2 ^ 63 : Nat)), ((1 : Int), (2 ^ 63 : Nat))], [],
    some 2, some 1, none, none, 0, 0⟩

theorem bigQtyBook_step1 :
    OrderBookImpl.apply_update MAX_LEVELS OrderBookImpl.new
      (Update.Set 1 (2 ^ 63) Side.Bid) =
    ⟨[((1 : Int), (2 ^ 63 : Nat))], [], some 1, none, none, none, 2 ^ 63, 0⟩ := by
  show OrderBookImpl.new.withBid
      (side_set true MAX_LEVELS OrderBookImpl.new.bidState 1 (2 ^ 63)) = _
  rw [show OrderBookImpl.new.bidState = (⟨[], none, none, 0⟩ : SideState) from rfl]
  rw [side_set]
  dsimp only
  rw [locate_nil]
  decide

theorem wrapL1_locate : locate true [((1 : Int), (2 ^ 63 : Nat))] 2 = (false, 0) := by
  refine locate_insert_point true _ 2 (List.pairwise_singleton _ _)
    ?_ 0 (by norm_num) ?_ ?_
  · intro y hy
    rw [List.mem_singleton] at hy
    subst hy
    decide
  · intro y hy
    simp at hy
  · intro y hy
    rw [List.drop_zero, List.mem_singleton] at hy
    subst hy
    rw [rk_true_iff]
    decide

theorem bigQtyBook_step2 :
    OrderBookImpl.apply_update MAX_LEVELS
      ⟨[((1 : Int), (2 ^ 63 : Nat))], [], some 1, none, none, none, 2 ^ 63, 0⟩
      (Update.Set 2 (2 ^ 63) Side.Bid) = bigQtyBookI := by
  show (⟨[((1 : Int), (2 ^ 63 : Nat))], [], some 1, none, none, none, 2 ^ 63, 0⟩ :
      OrderBookImpl).withBid
      (side_set true MAX_LEVELS ⟨[((1 : Int), (2 ^ 63 : Nat))], some 1, none, 2 ^ 63⟩
        2 (2 ^ 63)) = bigQtyBookI
  rw [side_set]
  dsimp only
  rw [wrapL1_locate]
  decide

theorem wrapBook_reachableW : ReachableW MAX_LEVELS wrapBook := by
  have hcap : 2 ≤ MAX_LEVELS := by norm_num [MAX_LEVELS]
  have hu1 := updateOk_set 1 (2 ^ 63) Side.Bid (by norm_num) (by norm_num)
    (by norm_num [U64])
  have hu2 := updateOk_set 2 (2 ^ 63) Side.Bid (by norm_num) (by norm_num)
    (by norm_num [U64])
  have hb1R : Reachable MAX_LEVELS
      ⟨[((1 : Int), (2 ^ 63 : Nat))], [], some 1, none, none, none, 2 ^ 63, 0⟩ := by
    rw [← bigQtyBook_step1]
    exact Reachable.step _ Reachable.base
  have hW1 : apply_updateW MAX_LEVELS OrderBookImpl.new (Update.Set 1 (2 ^ 63) Side.Bid) =
      ⟨[((1 : Int), (2 ^ 63 : Nat))], [], some 1, none, none, none, 2 ^ 63, 0⟩ := by
    have h := apply_updateW_sim MAX_LEVELS OrderBookImpl.new
      (Update.Set 1 (2 ^ 63) Side.Bid) hcap (bookInv_new _)
      (by intro y hy; simp [OrderBookImpl.new] at hy)
      (by intro y hy; simp [OrderBookImpl.new] at hy) hu1
    rw [wrapTotals_new, bigQtyBook_step1] at h
    rw [h]
    decide
  have hW2 : apply_updateW MAX_LEVELS
      ⟨[((1 : Int), (2 ^ 63 : Nat))], [], some 1, none, none, none, 2 ^ 63, 0⟩
      (Update.Set 2 (2 ^ 63) Side.Bid) = wrapBook := by
    have hwt : wrapTotals
        ⟨[((1 : Int), (2 ^ 63 : Nat))], [], some 1, none, none, none, 2 ^ 63, 0⟩ =
        ⟨[((1 : Int), (2 ^ 63 : Nat))], [], some 1, none, none, none, 2 ^ 63, 0⟩ := by
      decide
    have h := apply_updateW_sim MAX_LEVELS
      ⟨[((1 : Int), (2 ^ 63 : Nat))], [], some 1, none, none, none, 2 ^ 63, 0⟩
      (Update.Set 2 (2 ^ 63) Side.Bid) hcap (reachable_bookInv hcap hb1R)
      (by intro y hy
          rw [show (⟨[((1 : Int), (2 ^ 63 : Nat))], [], some 1, none, none, none,
            2 ^ 63, 0⟩ : OrderBookImpl).bids = [((1 : Int), (2 ^ 63 : Nat))] from rfl,
            List.mem_singleton] at hy
          subst hy
          norm_num [U64])
      (by intro y hy
          simp at hy) hu2
    rw [hwt, bigQtyBook_step2] at h
    rw [h]
    decide
  have r1 := ReachableW.step (Update.Set 1 (2 ^ 63) Side.Bid) hu1
    (ReachableW.base : ReachableW MAX_LEVELS OrderBookImpl.new)
  rw [hW1] at r1
  have r2 := ReachableW.step (Update.Set 2 (2 ^ 63) Side.Bid) hu2 r1
  rw [hW2] at r2
  exact r2

/-- A reachable book holding the extreme representable prices: bid at
`i64::MIN`, ask at `i64::MAX`. -/
def spreadBook : OrderBookImpl :=
  ⟨[((-(2 ^ 63) : Int), (1 : Nat))], [((2 ^ 63 - 1 : Int), (1 : Nat))],
    some (-(2 ^ 63)), none, some (2 ^ 63 - 1), none, 1, 1⟩

theorem spreadBook_step1 :
    OrderBookImpl.apply_update MAX_LEVELS OrderBookImpl.new
      (Update.Set (-(2 ^ 63)) 1 Side.Bid) =
    ⟨[((-(2 ^ 63) : Int), (1 : Nat))], [], some (-(2 ^ 63)), none, none, none, 1, 0⟩ := by
  show OrderBookImpl.new.withBid
      (side_set true MAX_LEVELS OrderBookImpl.new.bidState (-(2 ^ 63)) 1) = _
  rw [show OrderBookImpl.new.bidState = (⟨[], none, none, 0⟩ : SideState) from rfl]
  rw [side_set]
  dsimp only
  rw [locate_nil]
  decide

theorem spreadBook_step2 :
    OrderBookImpl.apply_update MAX_LEVELS
      ⟨[((-(2 ^ 63) : Int), (1 : Nat))], [], some (-(2 ^ 63)), none, none, none, 1, 0⟩
      (Update.Set (2 ^ 63 - 1) 1 Side.Ask) = spreadBook := by
  show (⟨[((-(2 ^ 63) : Int), (1 : Nat))], [], some (-(2 ^ 63)), none, none, none, 1, 0⟩ :
      OrderBookImpl).withAsk
      (side_set false MAX_LEVELS ⟨[], none, none, 0⟩ (2 ^ 63 - 1) 1) = spreadBook
  rw [side_set]
  dsimp only
  rw [locate_nil]
  decide

theorem spreadBook_reachableW : ReachableW MAX_LEVELS spreadBook := by
  have hcap : 2 ≤ MAX_LEVELS := by norm_num [MAX_LEVELS]
  have hu1 := updateOk_set (-(2 ^ 63)) 1 Side.Bid (by norm_num) (by norm_num)
    (by norm_num [U64])
  have hu2 := updateOk_set (2 ^ 63 - 1) 1 Side.Ask (by norm_num) (by norm_num)
    (by norm_num [U64])
  have hb1R : Reachable MAX_LEVELS
      ⟨[((-(2 ^ 63) : Int), (1 : Nat))], [], some (-(2 ^ 63)), none, none, none, 1, 0⟩ := by
    rw [← spreadBook_step1]
    exact Reachable.step _ Reachable.base
  have hW1 : apply_updateW MAX_LEVELS OrderBookImpl.new
      (Update.Set (-(2 ^ 63)) 1 Side.Bid) =
      ⟨[((-(2 ^ 63) : Int), (1 : Nat))], [], some (-(2 ^ 63)), none, none, none, 1, 0⟩ := by
    have h := apply_updateW_sim MAX_LEVELS OrderBookImpl.new
      (Update.Set (-(2 ^ 63)) 1 Side.Bid) hcap (bookInv_new _)
      (by intro y hy; simp [OrderBookImpl.new] at hy)
      (by intro y hy; simp [OrderBookImpl.new] at hy) hu1
    rw [wrapTotals_new, spreadBook_step1] at h
    rw [h]
    decide
  have hW2 : apply_updateW MAX_LEVELS
      ⟨[((-(2 ^ 63) : Int), (1 : Nat))], [], some (-(2 ^ 63)), none, none, none, 1, 0⟩
      (Update.Set (2 ^ 63 - 1) 1 Side.Ask) = spreadBook := by
    have hwt : wrapTotals
        ⟨[((-(2 ^ 63) : Int), (1 : Nat))], [], some (-(2 ^ 63)), none, none, none, 1, 0⟩ =
        ⟨[((-(2 ^ 63) : Int), (1 : Nat))], [], some (-(2 ^ 63)), none, none, none, 1, 0⟩ := by
      decide
    have h := apply_updateW_sim MAX_LEVELS
      ⟨[((-(2 ^ 63) : Int), (1 : Nat))], [], some (-(2 ^ 63)), none, none, none, 1, 0⟩
      (Update.Set (2 ^ 63 - 1) 1 Side.Ask) hcap (reachable_bookInv hcap hb1R)
      (by intro y hy
          rw [show (⟨[((-(2 ^ 63) : Int), (1 : Nat))], [], some (-(2 ^ 63)), none, none,
            none, 1, 0⟩ : OrderBookImpl).bids = [((-(2 ^ 63) : Int), (1 : Nat))] from rfl,
            List.mem_singleton] at hy
          subst hy
          norm_num [U64])
      (by intro y hy
          simp at hy) hu2
    rw [hwt, spreadBook_step2] at h
    rw [h]
    decide
  have r1 := ReachableW.step (Update.Set (-(2 ^ 63)) 1 Side.Bid) hu1
    (ReachableW.base : ReachableW MAX_LEVELS OrderBookImpl.new)
  rw [hW1] at r1
  have r2 := ReachableW.step (Update.Set (2 ^ 63 - 1) 1 Side.Ask) hu2 r1
  rw [hW2] at r2
  exact r2

theorem wrapL2_sorted :
    Ranked true [((2 : Int), (2 ^ 63 : Nat)), ((1 : Int), (2 ^ 63 : Nat))] := by
  refine List.pairwise_cons.mpr ⟨?_, List.pairwise_singleton _ _⟩
  intro y hy
  rw [List.mem_singleton] at hy
  subst hy
  rw [rk_true_iff]
  decide

theorem wrapL2_locate :
    locate true [((2 : Int), (2 ^ 63 : Nat)), ((1 : Int), (2 ^ 63 : Nat))] 2 = (true, 0) := by
  have hj : [((2 : Int), (2 ^ 63 : Nat)), ((1 : Int), (2 ^ 63 : Nat))][0]? =
      some ((2 : Int), (2 ^ 63 : Nat)) := rfl
  exact locate_found_at true _ 2 wrapL2_sorted hj

/-! ### Reading the spread off the caches -/

theorem get_spreadW_some (book : OrderBookImpl) {a b : Int}
    (ha : book.best_ask = some a) (hb : book.best_bid = some b) :
    get_spreadW book = some (wrap64 (a - b)) := by
  rw [get_spreadW, ha, hb]

theorem get_spreadW_none (book : OrderBookImpl)
    (h : book.best_ask = none ∨ book.best_bid = none) :
    get_spreadW book = none := by
  rcases h with h | h
  · rw [get_spreadW, h]
  · rw [get_spreadW, h]
    rcases book.best_ask with _ | a <;> rfl

theorem get_spreadChecked_some (book : OrderBookImpl) {a b : Int}
    (ha : book.best_ask = some a) (hb : book.best_bid = some b)
    (h1 : -(2 ^ 63) ≤ a - b) (h2 : a - b < 2 ^ 63) :
    get_spreadChecked book = some (some (a - b)) := by
  rw [get_spreadChecked, ha, hb]
  dsimp only
  rw [if_pos ⟨h1, h2⟩]

theorem get_spreadChecked_empty (book : OrderBookImpl)
    (h : book.best_ask = none ∨ book.best_bid = none) :
    get_spreadChecked book = some none := by
  rcases h with h | h
  · rw [get_spreadChecked, h]
  · rw [get_spreadChecked, h]
    rcases book.best_ask with _ | a <;> rfl

/-! ### The corrected claims C4, C8 and C9 -/

/-- C4 (counterexample to the claim as stated): after the reachable update
sequence `Set{1, 2^63, Bid}`, `Set{2, 2^63, Bid}`, the stored bid quantities
sum to `2^64` while the `u64` running total has wrapped to `0`, so
`get_total_quantity` is not the exact sum of the stored quantities. -/
theorem claim_C4_counterexample :
    ReachableW MAX_LEVELS wrapBook ∧
    wrapBook.get_total_quantity Side.Bid ≠ qsum (wrapBook.sideState Side.Bid).levels :=
  ⟨wrapBook_reachableW, by decide⟩

/-- C4 (amended): in every reachable state of the width-faithful machine,
each side's running total equals the exact sum of its stored quantities
reduced modulo `2^64` — and hence the exact sum itself whenever that sum
fits `u64`. -/
theorem claim_C4_total_invariant_amended (book : OrderBookImpl)
    (h : ReachableW MAX_LEVELS book) (side : Side) :
    book.get_total_quantity side = qsum (book.sideState side).levels % U64 ∧
    (qsum (book.sideState side).levels < U64 →
      book.get_total_quantity side = qsum (book.sideState side).levels) := by
  obtain ⟨bI, hR, hEq, hqb, hqa⟩ := reachableW_wrap (by norm_num [MAX_LEVELS]) h
  obtain ⟨hbid, hask⟩ := reachable_bookInv (by norm_num [MAX_LEVELS]) hR
  subst hEq
  have key : (wrapTotals bI).get_total_quantity side =
      qsum ((wrapTotals bI).sideState side).levels % U64 := by
    cases side
    · show bI.bidState.total % U64 = qsum bI.bidState.levels % U64
      rw [hbid.2.2.2.2.2]
    · show bI.askState.total % U64 = qsum bI.askState.levels % U64
      rw [hask.2.2.2.2.2]
  exact ⟨key, fun hlt => by rw [key, Nat.mod_eq_of_lt hlt]⟩

/-- C8 (counterexample to the claim as stated): with a reachable bid at
`i64::MIN` and ask at `i64::MAX`, the exact spread `ask - bid = 2^64 - 1`
does not fit `i64`: the release-mode subtraction wraps to `-1` and the
debug-mode subtraction panics, so `get_spread` neither returns the
difference nor is panic-free. -/
theorem claim_C8_counterexample :
    ReachableW MAX_LEVELS spreadBook ∧
    spreadBook.get_best_bid = some (-(2 ^ 63)) ∧
    spreadBook.get_best_ask = some (2 ^ 63 - 1) ∧
    get_spreadW spreadBook = some (-1) ∧
    ((-1 : Int) ≠ (2 ^ 63 - 1) - (-(2 ^ 63))) ∧
    get_spreadChecked spreadBook = none :=
  ⟨spreadBook_reachableW, rfl, rfl, by decide, by decide, by decide⟩

/-- C8 (amended): in every reachable state of the width-faithful machine,
`get_spread` is `none` exactly when a side is empty; when both sides are
non-empty it returns the `i64`-wrapped difference of the cached best
prices, which is the exact `best_ask - best_bid` whenever that difference
is representable in `i64` (and the debug-checked spread then agrees); on
the fresh book the spread and both best queries are absent. -/
theorem claim_C8_spread_total_amended (book : OrderBookImpl)
    (h : ReachableW MAX_LEVELS book) :
    (book.bids ≠ [] → book.asks ≠ [] →
      ∃ b a, book.get_best_bid = some b ∧ book.get_best_ask = some a ∧
        get_spreadW book = some (wrap64 (a - b)) ∧
        (-(2 ^ 63) ≤ a - b → a - b < 2 ^ 63 →
          get_spreadW book = some (a - b) ∧
          get_spreadChecked book = some (some (a - b)))) ∧
    ((book.bids = [] ∨ book.asks = []) →
      get_spreadW book = none ∧ get_spreadChecked book = some none) ∧
    get_spreadW OrderBookImpl.new = none ∧
    OrderBookImpl.new.get_best_bid = none ∧
    OrderBookImpl.new.get_best_ask = none := by
  obtain ⟨bI, hR, hEq, hqb, hqa⟩ := reachableW_wrap (by norm_num [MAX_LEVELS]) h
  obtain ⟨hbid, hask⟩ := reachable_bookInv (by norm_num [MAX_LEVELS]) hR
  subst hEq
  have hbb : bI.best_bid = (bI.bids[0]?).map Prod.fst := hbid.2.2.2.1
  have hba : bI.best_ask = (bI.asks[0]?).map Prod.fst := hask.2.2.2.1
  refine ⟨?_, ?_, rfl, rfl, rfl⟩
  · intro hnb hna
    have hnb1 : bI.bids ≠ [] := hnb
    have hna1 : bI.asks ≠ [] := hna
    have h0b : 0 < bI.bids.length := List.length_pos.mpr hnb1
    have h0a : 0 < bI.asks.length := List.length_pos.mpr hna1
    have hsb : bI.best_bid = some ((bI.bids[0]).1) := by
      rw [hbb, List.getElem?_eq_getElem h0b]
      rfl
    have hsa : bI.best_ask = some ((bI.asks[0]).1) := by
      rw [hba, List.getElem?_eq_getElem h0a]
      rfl
    refine ⟨(bI.bids[0]).1, (bI.asks[0]).1, hsb, hsa,
      get_spreadW_some (wrapTotals bI) hsa hsb, ?_⟩
    intro hd1 hd2
    refine ⟨?_, get_spreadChecked_some (wrapTotals bI) hsa hsb hd1 hd2⟩
    rw [get_spreadW_some (wrapTotals bI) hsa hsb, wrap64_eq_self _ hd1 hd2]
  · intro hemp
    have hnone : bI.best_ask = none ∨ bI.best_bid = none := by
      rcases hemp with he | he
      · right
        have he1 : bI.bids = [] := he
        rw [hbb, he1]
        rfl
      · left
        have he1 : bI.asks = [] := he
        rw [hba, he1]
        rfl
    exact ⟨get_spreadW_none (wrapTotals bI) hnone, get_spreadChecked_empty (wrapTotals bI) hnone⟩

/-- C9 (counterexample to the claim as stated): a `u64` underflow on a
running total is reachable — after `Set{1, 2^63, Bid}` and
`Set{2, 2^63, Bid}` wrap the bid total to `0`, `Remove{2, Bid}` executes
`0 - 2^63`, so the debug-checked shadow panics (`none`): the subtracted
quantity is not currently included in the stored total. -/
theorem claim_C9_counterexample :
    ReachableW MAX_LEVELS wrapBook ∧ updateOk (Update.Remove 2 Side.Bid) ∧
    apply_updateCheckedDbg MAX_LEVELS wrapBook (Update.Remove 2 Side.Bid) = none := by
  refine ⟨wrapBook_reachableW, updateOk_remove 2 Side.Bid (by norm_num) (by norm_num), ?_⟩
  show (side_removeDbg true wrapBook.bidState 2).map wrapBook.withBid = none
  rw [show wrapBook.bidState =
    (⟨[((2 : Int), (2 ^ 63 : Nat)), ((1 : Int), (2 ^ 63 : Nat))], some 2, some 1, 0⟩ :
      SideState) from rfl]
  rw [side_removeDbg]
  dsimp only
  rw [wrapL2_locate]
  decide

/-- C9 (amended): in every reachable state of the width-faithful machine,
all structural panic sites are unreachable: the structurally checked shadow
— out-of-bounds indexing, a failing `last().unwrap()` and an over-capacity
`insert_at` all give `none` — always returns `some` and agrees with the
machine step, and `get_quantity_at` never indexes out of bounds.  Only the
debug-mode `u64` total arithmetic (see the counterexample) and the `i64`
spread subtraction (claim C8) can fail on reachable inputs. -/
theorem claim_C9_totality_amended (book : OrderBookImpl)
    (h : ReachableW MAX_LEVELS book) :
    (∀ u : Update, apply_updateCheckedW MAX_LEVELS book u =
      some (apply_updateW MAX_LEVELS book u)) ∧
    (∀ (p : Int) (side : Side), get_quantity_atChecked book p side =
      some (book.get_quantity_at p side)) := by
  obtain ⟨bI, hR, hEq, hqb, hqa⟩ := reachableW_wrap (by norm_num [MAX_LEVELS]) h
  obtain ⟨hbid, hask⟩ := reachable_bookInv (by norm_num [MAX_LEVELS]) hR
  subst hEq
  refine ⟨?_, fun p side => get_quantity_atChecked_eq (wrapTotals bI) p side⟩
  intro u
  rcases u with ⟨p, q, side⟩ | ⟨p, side⟩ <;> rcases side
  · show (side_setCheckedW true MAX_LEVELS (wrapTotals bI).bidState p q).map
      (wrapTotals bI).withBid = _
    rw [side_setCheckedW_eq true MAX_LEVELS (wrapTotals bI).bidState p q
      (by norm_num [MAX_LEVELS]) hbid.1 hbid.2.2.1]
    rfl
  · show (side_setCheckedW false MAX_LEVELS (wrapTotals bI).askState p q).map
      (wrapTotals bI).withAsk = _
    rw [side_setCheckedW_eq false MAX_LEVELS (wrapTotals bI).askState p q
      (by norm_num [MAX_LEVELS]) hask.1 hask.2.2.1]
    rfl
  · show (side_removeCheckedW true (wrapTotals bI).bidState p).map
      (wrapTotals bI).withBid = _
    rw [side_removeCheckedW_eq true (wrapTotals bI).bidState p]
    rfl
  · show (side_removeCheckedW false (wrapTotals bI).askState p).map
      (wrapTotals bI).withAsk = _
    rw [side_removeCheckedW_eq false (wrapTotals bI).askState p]
    rfl

theorem claim_C4_total_invariant_amended_witness :
    ReachableW MAX_LEVELS wrapBook ∧
    wrapBook.get_total_quantity Side.Bid =
      qsum (wrapBook.sideState Side.Bid).levels % U64 :=
  ⟨wrapBook_reachableW,
   (claim_C4_total_invariant_amended wrapBook wrapBook_reachableW Side.Bid).1⟩

theorem claim_C8_spread_total_amended_witness :
    ReachableW MAX_LEVELS spreadBook ∧ spreadBook.bids ≠ [] ∧ spreadBook.asks ≠ [] ∧
    (∃ b a, spreadBook.get_best_bid = some b ∧ spreadBook.get_best_ask = some a ∧
      get_spreadW spreadBook = some (wrap64 (a - b)) ∧
      (-(2 ^ 63) ≤ a - b → a - b < 2 ^ 63 →
        get_spreadW spreadBook = some (a - b) ∧
        get_spreadChecked spreadBook = some (some (a - b)))) :=
  ⟨spreadBook_reachableW, by decide, by decide,
   (claim_C8_spread_total_amended spreadBook spreadBook_reachableW).1
     (by decide) (by decide)⟩

theorem claim_C9_totality_amended_witness :
    ReachableW MAX_LEVELS wrapBook ∧
    apply_updateCheckedW MAX_LEVELS wrapBook (Update.Remove 2 Side.Bid) =
      some (apply_updateW MAX_LEVELS wrapBook (Update.Remove 2 Side.Bid)) :=
  ⟨wrapBook_reachableW,
   (claim_C9_totality_amended wrapBook wrapBook_reachableW).1 (Update.Remove 2 Side.Bid)⟩

end OrderBookSpec
